import Mathlib

/-!
Shallow embedding of `pkg/sqlite/anonymise.go` (stash anonymisation engine)
and proofs about it.

Modelling conventions:
* Go strings are modelled as `List Char` (Go `for _, c := range s` iterates
  runes; the obfuscator emits one rune per input rune).
* The cryptographically secure random source (`crypto/rand`) is modelled as a
  stream `rs : Nat → Nat` of draws together with a counter: the i-th call of
  `rand.Int(rand.Reader, n)` returns `rs i`.  `rand.Int` guarantees a value in
  `[0, n)`; a draw out of range models a failing random source, on which the
  Go code panics — modelled as `Option.none` propagating outward.
* SQL statements are embedded as list transformations on the table contents,
  in physical row order.
* The transaction wrapper `txn.WithTxn` (package `pkg/txn`, outside this
  repository's sources) is, per the spec, a begin/commit/rollback scope around
  each page or bulk statement; since any error aborts the whole run, its
  rollback content is never observable and the wrapper is modelled as running
  its body directly.
-/

namespace StashAnon

/-- Go strings, as rune sequences. -/
abbrev Str := List Char

/-- The alphanumeric obfuscation alphabet (`letters` constant in the source). -/
def letters : List Char :=
  "abcdefghijklmnopqrstuvwxyzABCDEFGHIJKLMNOPQRSTUVWXYZ0123456789".toList

/-- The hexadecimal obfuscation alphabet (`hex` constant in the source). -/
def hexDict : List Char := "0123456789abcdef".toList

/-- Go's `unicode.IsSpace`: the Unicode White_Space property
(U+0009–U+000D, U+0020, U+0085, U+00A0, U+1680, U+2000–U+200A,
U+2028, U+2029, U+202F, U+205F, U+3000). -/
def goIsSpace (c : Char) : Bool :=
  let n := c.toNat
  (9 ≤ n && n ≤ 13) || n == 32 || n == 0x85 || n == 0xA0 || n == 0x1680 ||
    (0x2000 ≤ n && n ≤ 0x200A) || n == 0x2028 || n == 0x2029 ||
    n == 0x202F || n == 0x205F || n == 0x3000

/-- A random source: the value returned by the i-th draw. -/
abbrev RS := Nat → Nat

/-- `obfuscateString` from the source: whitespace runes are copied, every other
rune is replaced by `dict[draw]` for the next random draw.  `k` is the index of
the next unconsumed draw; the result carries the advanced index.  A draw out of
range (the `rand.Int` error / panic path) yields `none`. -/
def obfuscateString (dict : List Char) (rs : RS) : Nat → Str → Option (Str × Nat)
  | k, [] => some ([], k)
  | k, c :: cs =>
    if goIsSpace c then
      match obfuscateString dict rs k cs with
      | some (out, k2) => some (c :: out, k2)
      | none => none
    else
      if h : rs k < dict.length then
        match obfuscateString dict rs (k + 1) cs with
        | some (out, k2) => some (dict.get ⟨rs k, h⟩ :: out, k2)
        | none => none
      else
        none

/-- Pointwise shape relation between an input rune and an output rune. -/
def obShape (dict : List Char) (a b : Char) : Prop :=
  if goIsSpace a then b = a else b ∈ dict

/-! ### Generic value-equality updates (`anonymiseText` / `anonymiseFingerprint`)

The Go functions take a table and a column name; here the column is given by a
getter (`get`, returning `none` for SQL NULL) and a setter.  The statement
issued is `UPDATE table SET col = obfuscated WHERE col = value`: the
obfuscation is computed once and the update touches every row whose column
currently equals `value`. -/

/-- `anonymiseText`: one obfuscation with the `letters` alphabet, one update
by value equality. -/
def anonymiseText {α : Type} (get : α → Option Str) (st : Str → α → α)
    (rs : RS) (k : Nat) (value : Str) (t : List α) : Option (List α × Nat) :=
  match obfuscateString letters rs k value with
  | none => none
  | some (r, k2) =>
    some (t.map (fun row => if get row = some value then st r row else row), k2)

/-- `anonymiseFingerprint`: same as `anonymiseText` but over the hexadecimal
alphabet. -/
def anonymiseFingerprint {α : Type} (get : α → Option Str) (st : Str → α → α)
    (rs : RS) (k : Nat) (value : Str) (t : List α) : Option (List α × Nat) :=
  match obfuscateString hexDict rs k value with
  | none => none
  | some (r, k2) =>
    some (t.map (fun row => if get row = some value then st r row else row), k2)

/-- `obfuscateNullString`: a NULL column contributes nothing to the patch,
a non-NULL one is obfuscated with the `letters` alphabet. -/
def obfuscateNullString (rs : RS) (k : Nat) (v : Option Str) :
    Option (Option Str × Nat) :=
  match v with
  | none => some (none, k)
  | some s =>
    match obfuscateString letters rs k s with
    | none => none
    | some (o, k2) => some (some o, k2)

/-- Apply one column of a patch: `some s` overwrites, `none` leaves the
column alone (it was omitted from the `goqu.Record`). -/
def patchField (p old : Option Str) : Option Str :=
  match p with
  | some s => some s
  | none => old

/-! ### Row types of the anonymised tables -/

/-- A row of the `scenes` table (the columns the anonymiser touches). -/
structure SceneRow where
  id : Nat
  title : Option Str
  details : Option Str
  url : Option Str
  code : Option Str
  director : Option Str
  coverBlob : Option Str
deriving DecidableEq

/-- A row of the `folders` table. -/
structure FolderRow where
  id : Nat
  parent : Option Nat
  path : Str
deriving DecidableEq

/-- A row of the `files` table (the columns the anonymiser touches). -/
structure FileRow where
  id : Nat
  basename : Str
deriving DecidableEq

/-- Decimal string form of an identifier (`CAST(id AS VARCHAR)` /
SQLite's integer-to-text coercion in `||`). -/
def natStr (n : Nat) : Str := (Nat.repr n).toList

/-- `filepath.Separator` on the target platform. -/
def sep : Char := '/'

/-! ### Folder path rewriting (`anonymiseFolders` / `anonymiseFoldersRecurse`) -/

/-- The parent criterion of `anonymiseFoldersRecurse`: `parentFolderID == 0`
selects root rows (`parent_folder_id IS NULL`), any other value selects
`parent_folder_id = parentFolderID`. -/
def pmatch (pid : Nat) (par : Option Nat) : Bool :=
  if pid = 0 then par == none else par == some pid

/-- The new path assigned to a matching folder: roots get the string form of
their own id; others get `parentPath || separator || id`. -/
def folderNewPath (pid : Nat) (ppath : Str) (fid : Nat) : Str :=
  if pid = 0 then natStr fid else ppath ++ sep :: natStr fid

/-- The bulk `UPDATE folders SET path = ... WHERE parent_folder_id ...`
statement of one recursion step. -/
def folderUpdate (pid : Nat) (ppath : Str) (t : List FolderRow) : List FolderRow :=
  t.map (fun f =>
    if pmatch pid f.parent then { f with path := folderNewPath pid ppath f.id } else f)

/-- The `SELECT id, path FROM folders WHERE parent_folder_id ...` snapshot the
recursion iterates over (taken after the update). -/
def folderChildren (pid : Nat) (t : List FolderRow) : List (Nat × Str) :=
  (t.filter (fun f => pmatch pid f.parent)).map (fun f => (f.id, f.path))

/-- Sequentially run `step` on each `(id, path)` pair, threading the table. -/
def foldSteps (step : Nat → Str → List FolderRow → Option (List FolderRow)) :
    List (Nat × Str) → List FolderRow → Option (List FolderRow)
  | [], acc => some acc
  | c :: cs, acc =>
    match step c.1 c.2 acc with
    | none => none
    | some acc2 => foldSteps step cs acc2

/-- One unfolding of `anonymiseFoldersRecurse`: update the children of
`pid`, then recurse into each child using its freshly read `(id, path)`. -/
def anonymiseFoldersRecurseAux
    (recur : Nat → Str → List FolderRow → Option (List FolderRow))
    (pid : Nat) (ppath : Str) (t : List FolderRow) : Option (List FolderRow) :=
  let t1 := folderUpdate pid ppath t
  foldSteps recur (folderChildren pid t1) t1

/-- `anonymiseFoldersRecurse`, fuel-indexed (the Go code recurses without
bound; `none` models exhausting the call stack / non-termination on
ill-founded parent data). -/
def anonymiseFoldersRecurse : Nat → Nat → Str → List FolderRow → Option (List FolderRow)
  | 0 => fun _ _ _ => none
  | fuel + 1 => anonymiseFoldersRecurseAux (anonymiseFoldersRecurse fuel)

/-- `anonymiseFolders`: the whole folder stage, starting at the virtual root
(`parentFolderID = 0`, empty parent path). -/
def anonymiseFolders (fuel : Nat) (t : List FolderRow) : Option (List FolderRow) :=
  anonymiseFoldersRecurse fuel 0 [] t

/-- The skeleton of a folder table: ids and parent pointers (the data the
recursion's control flow depends on; updates only rewrite paths). -/
def skel (t : List FolderRow) : List (Nat × Option Nat) :=
  t.map (fun f => (f.id, f.parent))

/-- Well-formed folder skeleton: ids distinct and non-zero, parent pointers
resolve, and a depth function `d` witnesses acyclicity. -/
def WFsk (sk : List (Nat × Option Nat)) (d : Nat → Nat) : Prop :=
  (sk.map Prod.fst).Nodup ∧
  (∀ p ∈ sk, p.1 ≠ 0) ∧
  (∀ p ∈ sk, ∀ q, p.2 = some q → ∃ r ∈ sk, r.1 = q) ∧
  (∀ p ∈ sk, p.2 = none → d p.1 = 0) ∧
  (∀ p ∈ sk, ∀ r ∈ sk, p.2 = some r.1 → d p.1 = d r.1 + 1)

/-- `BelowS sk pid x`: folder `x` is a strict descendant of `pid` in the
skeleton (`pid = 0` stands for the virtual root above all real roots). -/
inductive BelowS (sk : List (Nat × Option Nat)) (pid : Nat) : Nat → Prop
  | base (p : Nat × Option Nat) : p ∈ sk → pmatch pid p.2 = true → BelowS sk pid p.1
  | step (p : Nat × Option Nat) (g : Nat) :
      BelowS sk pid g → p ∈ sk → p.2 = some g → BelowS sk pid p.1

/-- The recursion level at which the children of `pid` are rewritten. -/
def lvl (d : Nat → Nat) (pid : Nat) : Nat :=
  if pid = 0 then 0 else d pid + 1

/-- The inductive contract of one `anonymiseFoldersRecurse` call, used as the
motive for the fuel induction. -/
def FoldersMain (fuel : Nat) : Prop :=
  ∀ (pid : Nat) (pp : Str) (t : List FolderRow) (d : Nat → Nat),
    WFsk (skel t) d →
    (∀ p ∈ skel t, BelowS (skel t) pid p.1 → d p.1 + 2 ≤ fuel + lvl d pid) →
    1 ≤ fuel →
    ∃ t2, anonymiseFoldersRecurse fuel pid pp t = some t2 ∧
      skel t2 = skel t ∧
      (∀ (i : Nat) (hi : i < t.length) (hi2 : i < t2.length),
        ¬ BelowS (skel t) pid ((t.get ⟨i, hi⟩).id) → t2.get ⟨i, hi2⟩ = t.get ⟨i, hi⟩) ∧
      (∀ (i : Nat) (hi2 : i < t2.length),
        pmatch pid ((t2.get ⟨i, hi2⟩).parent) = true →
        (t2.get ⟨i, hi2⟩).path = folderNewPath pid pp ((t2.get ⟨i, hi2⟩).id)) ∧
      (∀ (i j : Nat) (hi : i < t2.length) (hj : j < t2.length),
        BelowS (skel t) pid ((t2.get ⟨j, hj⟩).id) →
        (t2.get ⟨i, hi⟩).parent = some ((t2.get ⟨j, hj⟩).id) →
        (t2.get ⟨i, hi⟩).path = (t2.get ⟨j, hj⟩).path ++ sep :: natStr ((t2.get ⟨i, hi⟩).id))

/-! ### Files stage (`anonymiseFiles`) -/

/-- `anonymiseFiles`: the single bulk statement
`UPDATE files SET basename = CAST(id AS VARCHAR)` (one transaction, no
paging, no per-row patch). -/
def anonymiseFiles (t : List FileRow) : List FileRow :=
  t.map (fun r => { r with basename := natStr r.id })

/-! ### Scenes stage (`anonymiseScenes`) -/

/-- The per-row visit of `anonymiseScenes`: build the title/details/url patch,
issue it by row id when non-empty, then anonymise `code` and `director` by
value equality. -/
def sceneVisit (rs : RS) (t : List SceneRow) (k : Nat) (r : SceneRow) :
    Option (List SceneRow × Nat) :=
  match obfuscateNullString rs k r.title with
  | none => none
  | some (pt, k1) =>
  match obfuscateNullString rs k1 r.details with
  | none => none
  | some (pd, k2) =>
  match obfuscateNullString rs k2 r.url with
  | none => none
  | some (pu, k3) =>
  let t1 :=
    if pt = none ∧ pd = none ∧ pu = none then t
    else t.map (fun q => if q.id = r.id then
      { q with title := patchField pt q.title, details := patchField pd q.details,
               url := patchField pu q.url } else q)
  match r.code with
  | none =>
    (match r.director with
     | none => some (t1, k3)
     | some dv =>
        anonymiseText SceneRow.director (fun s q => { q with director := some s }) rs k3 dv t1)
  | some c =>
    match anonymiseText SceneRow.code (fun s q => { q with code := some s }) rs k3 c t1 with
    | none => none
    | some (t2, k4) =>
      match r.director with
      | none => some (t2, k4)
      | some dv =>
        anonymiseText SceneRow.director (fun s q => { q with director := some s }) rs k4 dv t2

/-- One page of the scenes scan: rows with `id` above the cursor, first 1000
in table order (`WHERE id > last LIMIT 1000`, no ORDER BY in the source). -/
def scenesPage (last : Nat) (t : List SceneRow) : List SceneRow :=
  (t.filter (fun r => last < r.id)).take 1000

/-- Visit every row of a page snapshot in order, threading table, draw counter
and cursor (`lastID` is set to each visited row's id). -/
def sceneVisitRows (rs : RS) :
    List SceneRow → List SceneRow × Nat × Nat → Option (List SceneRow × Nat × Nat)
  | [], st => some st
  | r :: rest, (t, k, _) =>
    match sceneVisit rs t k r with
    | none => none
    | some (t2, k2) => sceneVisitRows rs rest (t2, k2, r.id)

/-- The paged loop of `anonymiseScenes` (fuel-indexed; `none` models
non-termination within the given fuel or a randomness panic). -/
def scenesLoop (rs : RS) : Nat → Nat → List SceneRow → Nat → Option (List SceneRow × Nat)
  | 0, _, _, _ => none
  | fuel + 1, last, t, k =>
    match scenesPage last t with
    | [] => some (t, k)
    | r :: rest =>
      match sceneVisitRows rs (r :: rest) (t, k, last) with
      | none => none
      | some (t2, k2, last2) => scenesLoop rs fuel last2 t2 k2

/-- `anonymiseScenes`: scan the scenes table from cursor 0. -/
def anonymiseScenes (rs : RS) (fuel : Nat) (t : List SceneRow) (k : Nat) :
    Option (List SceneRow × Nat) :=
  scenesLoop rs fuel 0 t k

/-! ### Fingerprints stage (`anonymiseFingerprints`) and alias scans
(`anonymiseAliases`)

Both scans page over a composite key compared as a SQLite row value
(`(file_id, type) > (?, ?)` and `(owner_id, alias) > (?, ?)`).  SQLite's
default BINARY collation compares TEXT bytewise, and UTF-8 byte order equals
code-point order, so strings are compared by code-point lexicographic order.
The `log` component records each visited row's key columns; it is pure
observation added by the embedding (the Go code only counts rows for
progress logging). -/

/-- A row of the `files_fingerprints` table. -/
structure FpRow where
  fileId : Nat
  typ : Str
  fingerprint : Str
deriving DecidableEq

/-- Bytewise (code-point) strict order on strings, as SQLite's BINARY
collation compares TEXT values. -/
def strLt : Str → Str → Bool
  | [], [] => false
  | [], _ :: _ => true
  | _ :: _, [] => false
  | a :: as, b :: bs =>
    if a.toNat < b.toNat then true
    else if b.toNat < a.toNat then false
    else strLt as bs

/-- SQLite row-value comparison `key > cur` for a `(Nat, Str)` pair:
`key.1 > cur.1 OR (key.1 = cur.1 AND key.2 > cur.2)`. -/
def tupGt (key cur : Nat × Str) : Bool :=
  (cur.1 < key.1) || (key.1 == cur.1 && strLt cur.2 key.2)

/-- The paging key of a fingerprint row: `(file_id, type)`. -/
def fpKey (r : FpRow) : Nat × Str := (r.fileId, r.typ)

/-- The keys above a cursor (the rows a scan still has to reach). -/
def keyFilter (cur : Nat × Str) (ks : List (Nat × Str)) : List (Nat × Str) :=
  ks.filter (fun x => tupGt x cur)

/-- One page of the fingerprints scan:
`WHERE (file_id, type) > (lastID, lastType) LIMIT 1000`. -/
def fpPage (cur : Nat × Str) (t : List FpRow) : List FpRow :=
  (t.filter (fun r => tupGt (fpKey r) cur)).take 1000

/-- The per-row visit: `anonymiseFingerprint` on the snapshot value, i.e. one
hex obfuscation applied to every row whose fingerprint equals it. -/
def fpVisit (rs : RS) (t : List FpRow) (k : Nat) (v : Str) :
    Option (List FpRow × Nat) :=
  anonymiseFingerprint (fun r => some r.fingerprint)
    (fun s r => { r with fingerprint := s }) rs k v t

/-- Visit the rows of a page snapshot in order, threading table, draw counter,
cursor (`(lastID, lastType) := key of each visited row`) and visit log. -/
def fpVisitRows (rs : RS) :
    List FpRow → List FpRow × Nat × (Nat × Str) × List (Nat × Str) →
    Option (List FpRow × Nat × (Nat × Str) × List (Nat × Str))
  | [], st => some st
  | r :: rest, (t, k, _, log) =>
    match fpVisit rs t k r.fingerprint with
    | none => none
    | some (t2, k2) => fpVisitRows rs rest (t2, k2, fpKey r, log ++ [fpKey r])

/-- The paged loop of `anonymiseFingerprints` (fuel-indexed). -/
def fpLoop (rs : RS) :
    Nat → (Nat × Str) → List FpRow → Nat → List (Nat × Str) →
    Option (List FpRow × Nat × List (Nat × Str))
  | 0, _, _, _, _ => none
  | fuel + 1, cur, t, k, log =>
    match fpPage cur t with
    | [] => some (t, k, log)
    | r :: rest =>
      match fpVisitRows rs (r :: rest) (t, k, cur, log) with
      | none => none
      | some (t2, k2, cur2, log2) => fpLoop rs fuel cur2 t2 k2 log2

/-- `anonymiseFingerprints`: scan from cursor `(0, "")`. -/
def anonymiseFingerprints (rs : RS) (fuel : Nat) (t : List FpRow) (k : Nat) :
    Option (List FpRow × Nat × List (Nat × Str)) :=
  fpLoop rs fuel (0, []) t k []

/-- A row of a `*_aliases` table (`performer_id`/`studio_id`/`tag_id` plus the
`alias` column, scanned as a nullable string). -/
structure AliasRow where
  ownerId : Nat
  aliasVal : Option Str
deriving DecidableEq

/-- Row-value comparison `(owner_id, alias) > (lastID, lastAlias)` with a
possibly NULL alias: a NULL in the compared position makes the comparison
NULL, which excludes the row. -/
def aliasKeyGt (r : AliasRow) (cur : Nat × Str) : Bool :=
  (cur.1 < r.ownerId) ||
    (r.ownerId == cur.1 &&
      match r.aliasVal with
      | none => false
      | some s => strLt cur.2 s)

/-- One page of an alias scan:
`WHERE (owner_id, alias) > (lastID, lastAlias) LIMIT 1000`. -/
def aliasPage (cur : Nat × Str) (t : List AliasRow) : List AliasRow :=
  (t.filter (fun r => aliasKeyGt r cur)).take 1000

/-- The per-row visit of `anonymiseAliases`: obfuscate the nullable alias; a
NULL alias contributes an empty patch (no write), otherwise update the rows
whose `(owner_id, alias)` equal the snapshot values. -/
def aliasVisit (rs : RS) (t : List AliasRow) (k : Nat) (r : AliasRow) :
    Option (List AliasRow × Nat) :=
  match obfuscateNullString rs k r.aliasVal with
  | none => none
  | some (pa, k2) =>
    match pa with
    | none => some (t, k2)
    | some o =>
      some (t.map (fun q =>
        if q.ownerId = r.ownerId ∧ q.aliasVal = r.aliasVal
        then { q with aliasVal := some o } else q), k2)

/-- Visit the rows of an alias page snapshot in order; the cursor becomes
`(id, alias.String)` of each visited row (`alias.String` is `""` for NULL). -/
def aliasVisitRows (rs : RS) :
    List AliasRow → List AliasRow × Nat × (Nat × Str) × List (Nat × Option Str) →
    Option (List AliasRow × Nat × (Nat × Str) × List (Nat × Option Str))
  | [], st => some st
  | r :: rest, (t, k, _, log) =>
    match aliasVisit rs t k r with
    | none => none
    | some (t2, k2) =>
      aliasVisitRows rs rest
        (t2, k2, (r.ownerId, match r.aliasVal with | none => [] | some s => s),
          log ++ [(r.ownerId, r.aliasVal)])

/-- The paged loop of `anonymiseAliases` (fuel-indexed). -/
def aliasLoop (rs : RS) :
    Nat → (Nat × Str) → List AliasRow → Nat → List (Nat × Option Str) →
    Option (List AliasRow × Nat × List (Nat × Option Str))
  | 0, _, _, _, _ => none
  | fuel + 1, cur, t, k, log =>
    match aliasPage cur t with
    | [] => some (t, k, log)
    | r :: rest =>
      match aliasVisitRows rs (r :: rest) (t, k, cur, log) with
      | none => none
      | some (t2, k2, cur2, log2) => aliasLoop rs fuel cur2 t2 k2 log2

/-- `anonymiseAliases`: scan an alias table from cursor `(0, "")`. -/
def anonymiseAliases (rs : RS) (fuel : Nat) (t : List AliasRow) (k : Nat) :
    Option (List AliasRow × Nat × List (Nat × Option Str)) :=
  aliasLoop rs fuel (0, []) t k []

/-! ### The remaining entity tables and their scan stages -/

/-- A row of the `scene_markers` table (title is NOT NULL: scanned as a plain
string). -/
structure MarkerRow where
  id : Nat
  title : Str
deriving DecidableEq

/-- A row of the `images` table. -/
structure ImageRow where
  id : Nat
  title : Option Str
  url : Option Str
deriving DecidableEq

/-- A row of the `galleries` table. -/
structure GalleryRow where
  id : Nat
  title : Option Str
  details : Option Str
deriving DecidableEq

/-- A row of the `performers` table. -/
structure PerformerRow where
  id : Nat
  name : Option Str
  details : Option Str
  url : Option Str
  twitter : Option Str
  instagram : Option Str
  tattoos : Option Str
  piercings : Option Str
  imageBlob : Option Str
deriving DecidableEq

/-- A row of the `studios` table. -/
structure StudioRow where
  id : Nat
  name : Option Str
  url : Option Str
  details : Option Str
  imageBlob : Option Str
deriving DecidableEq

/-- A row of the `tags` table. -/
structure TagRow where
  id : Nat
  name : Option Str
  description : Option Str
  imageBlob : Option Str
deriving DecidableEq

/-- A row of the `movies` table. -/
structure MovieRow where
  id : Nat
  name : Option Str
  aliases : Option Str
  synopsis : Option Str
  url : Option Str
  director : Option Str
  frontImageBlob : Option Str
  backImageBlob : Option Str
deriving DecidableEq

/-- The single-column-id paged scan shared (with the same literal shape) by the
marker, image, gallery, performer, studio, tag and movie loops: visit every
row of each page snapshot in order, setting `lastID` to each visited row's
id. -/
def scanVisitRows {α : Type} (visit : List α → Nat → α → Option (List α × Nat))
    (getId : α → Nat) :
    List α → List α × Nat × Nat → Option (List α × Nat × Nat)
  | [], st => some st
  | r :: rest, (t, k, _) =>
    match visit t k r with
    | none => none
    | some (t2, k2) => scanVisitRows visit getId rest (t2, k2, getId r)

/-- The paged loop (`WHERE id > lastID LIMIT 1000`, terminate on an empty
page), fuel-indexed. -/
def scanLoop {α : Type} (visit : List α → Nat → α → Option (List α × Nat))
    (getId : α → Nat) :
    Nat → Nat → List α → Nat → Option (List α × Nat)
  | 0, _, _, _ => none
  | fuel + 1, last, t, k =>
    match (t.filter (fun r => last < getId r)).take 1000 with
    | [] => some (t, k)
    | r :: rest =>
      match scanVisitRows visit getId (r :: rest) (t, k, last) with
      | none => none
      | some (t2, k2, last2) => scanLoop visit getId fuel last2 t2 k2

/-- Marker visit: `anonymiseText` on the (non-null) title by value equality. -/
def markerVisit (rs : RS) (t : List MarkerRow) (k : Nat) (r : MarkerRow) :
    Option (List MarkerRow × Nat) :=
  anonymiseText (fun q => some q.title) (fun s q => { q with title := s })
    rs k r.title t

/-- `anonymiseMarkers`. -/
def anonymiseMarkers (rs : RS) (fuel : Nat) (t : List MarkerRow) (k : Nat) :
    Option (List MarkerRow × Nat) :=
  scanLoop (markerVisit rs) MarkerRow.id fuel 0 t k

/-- Image visit: per-row patch of title and url. -/
def imageVisit (rs : RS) (t : List ImageRow) (k : Nat) (r : ImageRow) :
    Option (List ImageRow × Nat) :=
  match obfuscateNullString rs k r.title with
  | none => none
  | some (pt, k1) =>
  match obfuscateNullString rs k1 r.url with
  | none => none
  | some (pu, k2) =>
    some (if pt = none ∧ pu = none then t
      else t.map (fun q => if q.id = r.id then
        { q with title := patchField pt q.title, url := patchField pu q.url }
        else q), k2)

/-- `anonymiseImages`. -/
def anonymiseImages (rs : RS) (fuel : Nat) (t : List ImageRow) (k : Nat) :
    Option (List ImageRow × Nat) :=
  scanLoop (imageVisit rs) ImageRow.id fuel 0 t k

/-- Gallery visit: per-row patch of title and details. -/
def galleryVisit (rs : RS) (t : List GalleryRow) (k : Nat) (r : GalleryRow) :
    Option (List GalleryRow × Nat) :=
  match obfuscateNullString rs k r.title with
  | none => none
  | some (pt, k1) =>
  match obfuscateNullString rs k1 r.details with
  | none => none
  | some (pd, k2) =>
    some (if pt = none ∧ pd = none then t
      else t.map (fun q => if q.id = r.id then
        { q with title := patchField pt q.title,
                 details := patchField pd q.details } else q), k2)

/-- `anonymiseGalleries`. -/
def anonymiseGalleries (rs : RS) (fuel : Nat) (t : List GalleryRow) (k : Nat) :
    Option (List GalleryRow × Nat) :=
  scanLoop (galleryVisit rs) GalleryRow.id fuel 0 t k

/-- Performer visit: per-row patch of the seven text columns. -/
def performerVisit (rs : RS) (t : List PerformerRow) (k : Nat) (r : PerformerRow) :
    Option (List PerformerRow × Nat) :=
  match obfuscateNullString rs k r.name with
  | none => none
  | some (pn, k1) =>
  match obfuscateNullString rs k1 r.details with
  | none => none
  | some (pd, k2) =>
  match obfuscateNullString rs k2 r.url with
  | none => none
  | some (pu, k3) =>
  match obfuscateNullString rs k3 r.twitter with
  | none => none
  | some (pw, k4) =>
  match obfuscateNullString rs k4 r.instagram with
  | none => none
  | some (pg, k5) =>
  match obfuscateNullString rs k5 r.tattoos with
  | none => none
  | some (pa, k6) =>
  match obfuscateNullString rs k6 r.piercings with
  | none => none
  | some (pp, k7) =>
    some (if pn = none ∧ pd = none ∧ pu = none ∧ pw = none ∧ pg = none ∧
        pa = none ∧ pp = none then t
      else t.map (fun q => if q.id = r.id then
        { q with name := patchField pn q.name, details := patchField pd q.details,
                 url := patchField pu q.url, twitter := patchField pw q.twitter,
                 instagram := patchField pg q.instagram,
                 tattoos := patchField pa q.tattoos,
                 piercings := patchField pp q.piercings } else q), k7)

/-- `anonymisePerformers`: the performer scan followed by the performer-alias
scan. -/
def anonymisePerformers (rs : RS) (fuel : Nat) (t : List PerformerRow)
    (aliases : List AliasRow) (k : Nat) :
    Option (List PerformerRow × List AliasRow × Nat) :=
  match scanLoop (performerVisit rs) PerformerRow.id fuel 0 t k with
  | none => none
  | some (t2, k2) =>
    match anonymiseAliases rs fuel aliases k2 with
    | none => none
    | some (a2, k3, _) => some (t2, a2, k3)

/-- Studio visit: per-row patch of name, url, details. -/
def studioVisit (rs : RS) (t : List StudioRow) (k : Nat) (r : StudioRow) :
    Option (List StudioRow × Nat) :=
  match obfuscateNullString rs k r.name with
  | none => none
  | some (pn, k1) =>
  match obfuscateNullString rs k1 r.url with
  | none => none
  | some (pu, k2) =>
  match obfuscateNullString rs k2 r.details with
  | none => none
  | some (pd, k3) =>
    some (if pn = none ∧ pu = none ∧ pd = none then t
      else t.map (fun q => if q.id = r.id then
        { q with name := patchField pn q.name, url := patchField pu q.url,
                 details := patchField pd q.details } else q), k3)

/-- `anonymiseStudios`: the studio scan followed by the studio-alias scan
(the loop body carries a stale `TODO - anonymise studio aliases` comment, but
the alias scan is invoked right after the loop). -/
def anonymiseStudios (rs : RS) (fuel : Nat) (t : List StudioRow)
    (aliases : List AliasRow) (k : Nat) :
    Option (List StudioRow × List AliasRow × Nat) :=
  match scanLoop (studioVisit rs) StudioRow.id fuel 0 t k with
  | none => none
  | some (t2, k2) =>
    match anonymiseAliases rs fuel aliases k2 with
    | none => none
    | some (a2, k3, _) => some (t2, a2, k3)

/-- Tag visit: per-row patch of name and description. -/
def tagVisit (rs : RS) (t : List TagRow) (k : Nat) (r : TagRow) :
    Option (List TagRow × Nat) :=
  match obfuscateNullString rs k r.name with
  | none => none
  | some (pn, k1) =>
  match obfuscateNullString rs k1 r.description with
  | none => none
  | some (pd, k2) =>
    some (if pn = none ∧ pd = none then t
      else t.map (fun q => if q.id = r.id then
        { q with name := patchField pn q.name,
                 description := patchField pd q.description } else q), k2)

/-- `anonymiseTags`: the tag scan followed by the tag-alias scan. -/
def anonymiseTags (rs : RS) (fuel : Nat) (t : List TagRow)
    (aliases : List AliasRow) (k : Nat) :
    Option (List TagRow × List AliasRow × Nat) :=
  match scanLoop (tagVisit rs) TagRow.id fuel 0 t k with
  | none => none
  | some (t2, k2) =>
    match anonymiseAliases rs fuel aliases k2 with
    | none => none
    | some (a2, k3, _) => some (t2, a2, k3)

/-- Movie visit: per-row patch of name, aliases, synopsis, url, director. -/
def movieVisit (rs : RS) (t : List MovieRow) (k : Nat) (r : MovieRow) :
    Option (List MovieRow × Nat) :=
  match obfuscateNullString rs k r.name with
  | none => none
  | some (pn, k1) =>
  match obfuscateNullString rs k1 r.aliases with
  | none => none
  | some (pa, k2) =>
  match obfuscateNullString rs k2 r.synopsis with
  | none => none
  | some (ps, k3) =>
  match obfuscateNullString rs k3 r.url with
  | none => none
  | some (pu, k4) =>
  match obfuscateNullString rs k4 r.director with
  | none => none
  | some (pd, k5) =>
    some (if pn = none ∧ pa = none ∧ ps = none ∧ pu = none ∧ pd = none then t
      else t.map (fun q => if q.id = r.id then
        { q with name := patchField pn q.name, aliases := patchField pa q.aliases,
                 synopsis := patchField ps q.synopsis, url := patchField pu q.url,
                 director := patchField pd q.director } else q), k5)

/-- `anonymiseMovies`. -/
def anonymiseMovies (rs : RS) (fuel : Nat) (t : List MovieRow) (k : Nat) :
    Option (List MovieRow × Nat) :=
  scanLoop (movieVisit rs) MovieRow.id fuel 0 t k

/-! ### The whole store and the orchestrated run -/

/-- The working store: all tables the anonymiser touches.  Blob and stash-id
tables are opaque rows (only deleted wholesale). -/
structure Store where
  folders : List FolderRow
  files : List FileRow
  fingerprints : List FpRow
  scenes : List SceneRow
  markers : List MarkerRow
  images : List ImageRow
  galleries : List GalleryRow
  performers : List PerformerRow
  performerAliases : List AliasRow
  studios : List StudioRow
  studioAliases : List AliasRow
  tags : List TagRow
  tagAliases : List AliasRow
  movies : List MovieRow
  blobs : List Str
  sceneStashIds : List Str
  studioStashIds : List Str
  performerStashIds : List Str
deriving DecidableEq

/-- `deleteBlobs`: null out every binary payload column and empty the `blobs`
table. -/
def deleteBlobs (s : Store) : Store :=
  { s with
    tags := s.tags.map (fun r => { r with imageBlob := none }),
    studios := s.studios.map (fun r => { r with imageBlob := none }),
    performers := s.performers.map (fun r => { r with imageBlob := none }),
    scenes := s.scenes.map (fun r => { r with coverBlob := none }),
    movies := s.movies.map (fun r =>
      { r with frontImageBlob := none, backImageBlob := none }),
    blobs := [] }

/-- `deleteStashIDs`: delete all rows of the three external-id tables. -/
def deleteStashIDs (s : Store) : Store :=
  { s with sceneStashIds := [], studioStashIds := [], performerStashIds := [] }

/-- The ordered stage list of `Anonymise` as store transformers (`none` is a
Go panic — a failed random draw — or exhausted fuel, both of which unwind
without returning an error).  `db.optimise()` ignores its own errors and
changes no table: identity. -/
def stageList (rs : RS) (fuel : Nat) : List (Store × Nat → Option (Store × Nat)) :=
  [fun sk => some (deleteBlobs sk.1, sk.2),
   fun sk => some (deleteStashIDs sk.1, sk.2),
   fun sk => (anonymiseFolders fuel sk.1.folders).map
     (fun f2 => ({ sk.1 with folders := f2 }, sk.2)),
   fun sk => some ({ sk.1 with files := anonymiseFiles sk.1.files }, sk.2),
   fun sk => (anonymiseFingerprints rs fuel sk.1.fingerprints sk.2).map
     (fun p => ({ sk.1 with fingerprints := p.1 }, p.2.1)),
   fun sk => (anonymiseScenes rs fuel sk.1.scenes sk.2).map
     (fun p => ({ sk.1 with scenes := p.1 }, p.2)),
   fun sk => (anonymiseMarkers rs fuel sk.1.markers sk.2).map
     (fun p => ({ sk.1 with markers := p.1 }, p.2)),
   fun sk => (anonymiseImages rs fuel sk.1.images sk.2).map
     (fun p => ({ sk.1 with images := p.1 }, p.2)),
   fun sk => (anonymiseGalleries rs fuel sk.1.galleries sk.2).map
     (fun p => ({ sk.1 with galleries := p.1 }, p.2)),
   fun sk => (anonymisePerformers rs fuel sk.1.performers sk.1.performerAliases sk.2).map
     (fun p => ({ sk.1 with performers := p.1, performerAliases := p.2.1 }, p.2.2)),
   fun sk => (anonymiseStudios rs fuel sk.1.studios sk.1.studioAliases sk.2).map
     (fun p => ({ sk.1 with studios := p.1, studioAliases := p.2.1 }, p.2.2)),
   fun sk => (anonymiseTags rs fuel sk.1.tags sk.1.tagAliases sk.2).map
     (fun p => ({ sk.1 with tags := p.1, tagAliases := p.2.1 }, p.2.2)),
   fun sk => (anonymiseMovies rs fuel sk.1.movies sk.2).map
     (fun p => ({ sk.1 with movies := p.1 }, p.2)),
   fun sk => some sk]

/-- The result of running the stage sequence. -/
inductive StageResult where
  | ok (s : Store) (k : Nat)
  | errored
  | panicked (s : Store)
deriving DecidableEq

/-- Run the stages in order.  Modelled from the spec: `utils.Do`
(`pkg/utils`, outside `src/`) runs the closures sequentially and returns the
first error, skipping the rest.  An injected SQL error at stage `idx`
(from the environment `errStage`) makes that stage return an error; a panic
(`none`) unwinds immediately, carrying the store content at stage entry —
only the file's continued existence matters to the claims. -/
def runStagesAux :
    List (Store × Nat → Option (Store × Nat)) → Nat → Option Nat →
    Store × Nat → StageResult
  | [], _, _, (s, k) => StageResult.ok s k
  | f :: fs, idx, errStage, (s, k) =>
    if errStage = some idx then StageResult.errored
    else
      match f (s, k) with
      | none => StageResult.panicked s
      | some (s2, k2) => runStagesAux fs (idx + 1) errStage (s2, k2)

/-- All fourteen stages from the first, with draw counter 0. -/
def runStages (rs : RS) (fuel : Nat) (errStage : Option Nat) (s : Store) :
    StageResult :=
  runStagesAux (stageList rs fuel) 0 errStage (s, 0)

/-- How a full run ends. -/
inductive RunOutcome where
  | ok
  | vacuumFailed
  | openFailed
  | stageErrored
  | panicked
deriving DecidableEq

/-- The system state: the source store and the file at the destination path
(`none` = no file). -/
structure SysState where
  src : Store
  dest : Option Store
deriving DecidableEq

/-- `Anonymise` on an opened working store: on a stage error the database
file is removed (`_ = db.Remove()`); a panic propagates, leaving the file. -/
def anonymise (rs : RS) (fuel : Nat) (errStage : Option Nat) (working : Store) :
    Option Store × RunOutcome :=
  match runStages rs fuel errStage working with
  | StageResult.ok s2 _ => (some s2, RunOutcome.ok)
  | StageResult.errored => (none, RunOutcome.stageErrored)
  | StageResult.panicked s2 => (some s2, RunOutcome.panicked)

/-- `NewAnonymiser` followed by `Anonymise`, as one system-level run.
Modelled from the spec: `VACUUM INTO` (on the source connection) produces an
exact copy of the source at the destination path as an atomic whole-store
export; `Open` of the new file may fail, in which case `NewAnonymiser`
returns the error WITHOUT deleting the vacuumed file.  The booleans inject
those two environment failures. -/
def anonymiserRun (rs : RS) (fuel : Nat) (vacuumOk openOk : Bool)
    (errStage : Option Nat) (st : SysState) : SysState × RunOutcome :=
  if vacuumOk = false then (st, RunOutcome.vacuumFailed)
  else if openOk = false then
    ({ st with dest := some st.src }, RunOutcome.openFailed)
  else
    match anonymise rs fuel errStage st.src with
    | (d, out) => ({ st with dest := d }, out)

/-- The empty store (all tables empty), for concrete runs. -/
def emptyStore : Store :=
  ⟨[], [], [], [], [], [], [], [], [], [], [], [], [], [], [], [], [], []⟩

/-! # Theorems -/

theorem obfuscateString_shape (dict : List Char) (rs : RS) :
    ∀ (k : Nat) (s : Str) (out : Str) (k2 : Nat),
    obfuscateString dict rs k s = some (out, k2) →
    List.Forall₂ (obShape dict) s out := by
  intro k s
  induction s generalizing k with
  | nil =>
    intro out k2 h
    simp only [obfuscateString] at h
    cases h
    exact List.Forall₂.nil
  | cons c cs ih =>
    intro out k2 h
    simp only [obfuscateString] at h
    by_cases hsp : goIsSpace c
    · rw [if_pos hsp] at h
      cases hrec : obfuscateString dict rs k cs with
      | none => rw [hrec] at h; cases h
      | some p =>
        rw [hrec] at h
        cases p with
        | mk o2 kk =>
          simp only [Option.some.injEq, Prod.mk.injEq] at h
          obtain ⟨h1, h2⟩ := h
          subst h1
          refine List.Forall₂.cons ?_ (ih k o2 kk hrec)
          simp [obShape, hsp]
    · rw [if_neg hsp] at h
      by_cases hlt : rs k < dict.length
      · rw [dif_pos hlt] at h
        cases hrec : obfuscateString dict rs (k + 1) cs with
        | none => rw [hrec] at h; cases h
        | some p =>
          rw [hrec] at h
          cases p with
          | mk o2 kk =>
            simp only [Option.some.injEq, Prod.mk.injEq] at h
            obtain ⟨h1, h2⟩ := h
            subst h1
            refine List.Forall₂.cons ?_ (ih (k + 1) o2 kk hrec)
            simp only [obShape, hsp, if_false]
            exact List.get_mem dict (rs k) hlt
      · rw [dif_neg hlt] at h
        cases h

theorem obfuscateString_length (dict : List Char) (rs : RS)
    (k : Nat) (s : Str) (out : Str) (k2 : Nat)
    (h : obfuscateString dict rs k s = some (out, k2)) :
    out.length = s.length :=
  (List.Forall₂.length_eq (obfuscateString_shape dict rs k s out k2 h)).symm

/-- C3: for every string `s` and alphabet `dict`, whenever `obfuscateString`
returns a result, it has the same length as `s`, every whitespace character of
`s` appears unchanged at the same position of the output, and every
non-whitespace output character is a member of `dict`. -/
theorem obfuscate_shape_spec (dict : List Char) (rs : RS) (k : Nat)
    (s out : Str) (k2 : Nat)
    (h : obfuscateString dict rs k s = some (out, k2)) :
    out.length = s.length ∧
    ∀ (i : Nat) (h1 : i < s.length) (h2 : i < out.length),
      (goIsSpace (s.get ⟨i, h1⟩) = true → out.get ⟨i, h2⟩ = s.get ⟨i, h1⟩) ∧
      (goIsSpace (s.get ⟨i, h1⟩) = false → out.get ⟨i, h2⟩ ∈ dict) := by
  have hs := obfuscateString_shape dict rs k s out k2 h
  refine ⟨(List.Forall₂.length_eq hs).symm, ?_⟩
  intro i h1 h2
  have hg := hs.get h1 h2
  unfold obShape at hg
  by_cases hb : goIsSpace (s.get ⟨i, h1⟩)
  · rw [if_pos hb] at hg
    exact ⟨fun _ => hg, fun hc => by
      simp only [List.get_eq_getElem] at hb
      simp [hb] at hc⟩
  · rw [if_neg hb] at hg
    exact ⟨fun hc => absurd hc hb, fun _ => hg⟩

theorem obfuscate_shape_spec_witness :
    ("y y".toList).length = ("a b".toList).length ∧
    ∀ (i : Nat) (h1 : i < ("a b".toList).length) (h2 : i < ("y y".toList).length),
      (goIsSpace (("a b".toList).get ⟨i, h1⟩) = true →
        ("y y".toList).get ⟨i, h2⟩ = ("a b".toList).get ⟨i, h1⟩) ∧
      (goIsSpace (("a b".toList).get ⟨i, h1⟩) = false →
        ("y y".toList).get ⟨i, h2⟩ ∈ "xy".toList) :=
  obfuscate_shape_spec "xy".toList (fun _ => 1) 0 "a b".toList "y y".toList 2 (by decide)

/-- C6 counterexample: it is not true that every non-whitespace character is
always altered — a random draw can reproduce the original character.  With the
`letters` alphabet, input "a" and a draw of 0, the output equals the input. -/
theorem obfuscate_nonspace_may_be_unchanged :
    ¬ (∀ (dict : List Char) (rs : RS) (k : Nat) (s out : Str) (k2 : Nat),
        obfuscateString dict rs k s = some (out, k2) →
        ∀ (i : Nat) (h1 : i < s.length) (h2 : i < out.length),
          goIsSpace (s.get ⟨i, h1⟩) = false →
          out.get ⟨i, h2⟩ ≠ s.get ⟨i, h1⟩) := by
  intro hcl
  have h0 : obfuscateString letters (fun _ => 0) 0 "a".toList =
      some ("a".toList, 1) := by decide
  exact hcl letters (fun _ => 0) 0 "a".toList "a".toList 1 h0 0
    (by decide) (by decide) (by decide) rfl

/-- C6 amended: whitespace characters are never altered, and every
non-whitespace character is replaced by a character drawn from the alphabet
(so it always belongs to the alphabet); the drawn character is not guaranteed
to differ from the original one. -/
theorem obfuscate_space_fixed_nonspace_from_dict (dict : List Char) (rs : RS)
    (k : Nat) (s out : Str) (k2 : Nat)
    (h : obfuscateString dict rs k s = some (out, k2)) :
    (∀ (i : Nat) (h1 : i < s.length) (h2 : i < out.length),
      goIsSpace (s.get ⟨i, h1⟩) = true → out.get ⟨i, h2⟩ = s.get ⟨i, h1⟩) ∧
    (∀ (i : Nat) (h1 : i < s.length) (h2 : i < out.length),
      goIsSpace (s.get ⟨i, h1⟩) = false → out.get ⟨i, h2⟩ ∈ dict) := by
  have hs := obfuscateString_shape dict rs k s out k2 h
  constructor
  · intro i h1 h2 hb
    have hg := hs.get h1 h2
    unfold obShape at hg
    rwa [if_pos hb] at hg
  · intro i h1 h2 hb
    have hg := hs.get h1 h2
    unfold obShape at hg
    rwa [if_neg (fun hc => by
      simp only [List.get_eq_getElem] at hb
      simp [hb] at hc)] at hg

theorem obfuscate_space_fixed_nonspace_from_dict_witness :
    (∀ (i : Nat) (h1 : i < ("c d".toList).length) (h2 : i < ("0 1".toList).length),
      goIsSpace (("c d".toList).get ⟨i, h1⟩) = true →
      ("0 1".toList).get ⟨i, h2⟩ = ("c d".toList).get ⟨i, h1⟩) ∧
    (∀ (i : Nat) (h1 : i < ("c d".toList).length) (h2 : i < ("0 1".toList).length),
      goIsSpace (("c d".toList).get ⟨i, h1⟩) = false →
      ("0 1".toList).get ⟨i, h2⟩ ∈ hexDict) :=
  obfuscate_space_fixed_nonspace_from_dict hexDict (fun n => n) 0
    "c d".toList "0 1".toList 2 (by decide)

/-- C4 amended: for columns anonymised through the value-equality path
(`anonymiseText`: scene `code`/`director`, marker titles; and the analogous
`anonymiseFingerprint`), the replacement for an original value is computed
once per distinct value and applied in one update to every row currently equal
to that value, so such rows still share one identical value afterwards.
(Columns updated per row through `obfuscateNullString` patches are *not*
covered; see the counterexample.) -/
theorem anonymiseText_shared_value {α : Type} (get : α → Option Str)
    (st : Str → α → α) (rs : RS) (k : Nat) (value : Str) (t t2 : List α)
    (k2 : Nat)
    (hgs : ∀ s a, get (st s a) = some s)
    (h : anonymiseText get st rs k value t = some (t2, k2)) :
    ∃ r : Str,
      obfuscateString letters rs k value = some (r, k2) ∧
      t2 = t.map (fun row => if get row = some value then st r row else row) ∧
      ∀ (i j : Nat) (hi : i < t.length) (hj : j < t.length)
        (hi2 : i < t2.length) (hj2 : j < t2.length),
        get (t.get ⟨i, hi⟩) = some value → get (t.get ⟨j, hj⟩) = some value →
        get (t2.get ⟨i, hi2⟩) = some r ∧ get (t2.get ⟨j, hj2⟩) = some r := by
  unfold anonymiseText at h
  cases hob : obfuscateString letters rs k value with
  | none => rw [hob] at h; cases h
  | some p =>
    rw [hob] at h
    cases p with
    | mk r kk =>
      simp only [Option.some.injEq, Prod.mk.injEq] at h
      obtain ⟨h1, h2⟩ := h
      subst h2
      subst h1
      refine ⟨r, rfl, rfl, ?_⟩
      intro i j hi hj hi2 hj2 hvi hvj
      constructor
      · rw [List.get_eq_getElem, List.getElem_map]
        simp only [List.get_eq_getElem] at hvi
        rw [if_pos hvi, hgs]
      · rw [List.get_eq_getElem, List.getElem_map]
        simp only [List.get_eq_getElem] at hvj
        rw [if_pos hvj, hgs]

theorem anonymiseText_shared_value_witness :
    ∃ r : Str,
      obfuscateString letters (fun n => n + 1) 0 ("ab".toList) = some (r, 2) ∧
      ([some "bc".toList, some "bc".toList, some "x".toList] : List (Option Str)) =
        ([some "ab".toList, some "ab".toList, some "x".toList] : List (Option Str)).map
          (fun row => if (fun x => x) row = some ("ab".toList)
            then (fun (s : Str) (_ : Option Str) => some s) r row else row) ∧
      ∀ (i j : Nat)
        (hi : i < ([some "ab".toList, some "ab".toList, some "x".toList] : List (Option Str)).length)
        (hj : j < ([some "ab".toList, some "ab".toList, some "x".toList] : List (Option Str)).length)
        (hi2 : i < ([some "bc".toList, some "bc".toList, some "x".toList] : List (Option Str)).length)
        (hj2 : j < ([some "bc".toList, some "bc".toList, some "x".toList] : List (Option Str)).length),
        (fun x => x) (([some "ab".toList, some "ab".toList, some "x".toList] : List (Option Str)).get ⟨i, hi⟩) = some ("ab".toList) →
        (fun x => x) (([some "ab".toList, some "ab".toList, some "x".toList] : List (Option Str)).get ⟨j, hj⟩) = some ("ab".toList) →
        (fun x => x) (([some "bc".toList, some "bc".toList, some "x".toList] : List (Option Str)).get ⟨i, hi2⟩) = some r ∧
        (fun x => x) (([some "bc".toList, some "bc".toList, some "x".toList] : List (Option Str)).get ⟨j, hj2⟩) = some r :=
  anonymiseText_shared_value (fun x => x) (fun s _ => some s) (fun n => n + 1) 0
    ("ab".toList) [some "ab".toList, some "ab".toList, some "x".toList]
    [some "bc".toList, some "bc".toList, some "x".toList] 2
    (fun _ _ => rfl) (by decide)

/-- C10: `anonymiseFiles` rewrites the basename of every row of the files
table, unconditionally and regardless of its previous value, to the decimal
string form of that row's own identifier, leaving ids (and row count)
unchanged; the embedding is the single bulk `UPDATE` of the source (one
statement inside one transaction, no paging, no per-row patch). -/
theorem anonymiseFiles_rewrites_basenames (t : List FileRow) :
    (anonymiseFiles t).length = t.length ∧
    ∀ (i : Nat) (hi : i < t.length) (hi2 : i < (anonymiseFiles t).length),
      ((anonymiseFiles t).get ⟨i, hi2⟩).id = (t.get ⟨i, hi⟩).id ∧
      ((anonymiseFiles t).get ⟨i, hi2⟩).basename = natStr ((t.get ⟨i, hi⟩).id) := by
  refine ⟨by simp [anonymiseFiles], ?_⟩
  intro i hi hi2
  simp [anonymiseFiles, List.get_eq_getElem, List.getElem_map]

theorem anonymiseFiles_rewrites_basenames_witness :
    (anonymiseFiles [⟨7, "secret.mp4".toList⟩, ⟨8, "b c".toList⟩]).length =
      ([⟨7, "secret.mp4".toList⟩, ⟨8, "b c".toList⟩] : List FileRow).length ∧
    ∀ (i : Nat) (hi : i < ([⟨7, "secret.mp4".toList⟩, ⟨8, "b c".toList⟩] : List FileRow).length)
      (hi2 : i < (anonymiseFiles [⟨7, "secret.mp4".toList⟩, ⟨8, "b c".toList⟩]).length),
      ((anonymiseFiles [⟨7, "secret.mp4".toList⟩, ⟨8, "b c".toList⟩]).get ⟨i, hi2⟩).id =
        (([⟨7, "secret.mp4".toList⟩, ⟨8, "b c".toList⟩] : List FileRow).get ⟨i, hi⟩).id ∧
      ((anonymiseFiles [⟨7, "secret.mp4".toList⟩, ⟨8, "b c".toList⟩]).get ⟨i, hi2⟩).basename =
        natStr ((([⟨7, "secret.mp4".toList⟩, ⟨8, "b c".toList⟩] : List FileRow).get ⟨i, hi⟩).id) :=
  anonymiseFiles_rewrites_basenames [⟨7, "secret.mp4".toList⟩, ⟨8, "b c".toList⟩]

/-! ### Folder-stage helper lemmas -/

theorem skel_length (t : List FolderRow) : (skel t).length = t.length := by
  simp [skel]

theorem skel_get (t : List FolderRow) (i : Nat) (hi : i < t.length)
    (hi2 : i < (skel t).length) :
    (skel t).get ⟨i, hi2⟩ = ((t.get ⟨i, hi⟩).id, (t.get ⟨i, hi⟩).parent) := by
  simp [skel, List.get_eq_getElem, List.getElem_map]

theorem mem_of_skel_mem {t : List FolderRow} {p : Nat × Option Nat}
    (h : p ∈ skel t) : ∃ f ∈ t, f.id = p.1 ∧ f.parent = p.2 := by
  unfold skel at h
  obtain ⟨f, hf, he⟩ := List.mem_map.mp h
  exact ⟨f, hf, by rw [← he], by rw [← he]⟩

theorem pmatch_zero (par : Option Nat) : pmatch 0 par = true ↔ par = none := by
  cases par <;> simp [pmatch]

theorem pmatch_pos {pid : Nat} (h : pid ≠ 0) (par : Option Nat) :
    pmatch pid par = true ↔ par = some pid := by
  cases par <;> simp [pmatch, h]

theorem folderUpdate_length (pid : Nat) (pp : Str) (t : List FolderRow) :
    (folderUpdate pid pp t).length = t.length := by
  simp [folderUpdate]

theorem folderUpdate_get (pid : Nat) (pp : Str) (t : List FolderRow)
    (i : Nat) (hi : i < t.length) (hi2 : i < (folderUpdate pid pp t).length) :
    (folderUpdate pid pp t).get ⟨i, hi2⟩ =
      if pmatch pid ((t.get ⟨i, hi⟩).parent)
      then { t.get ⟨i, hi⟩ with path := folderNewPath pid pp ((t.get ⟨i, hi⟩).id) }
      else t.get ⟨i, hi⟩ := by
  simp [folderUpdate, List.get_eq_getElem, List.getElem_map]

theorem skel_folderUpdate (pid : Nat) (pp : Str) (t : List FolderRow) :
    skel (folderUpdate pid pp t) = skel t := by
  unfold skel folderUpdate
  rw [List.map_map]
  refine List.map_congr_left ?_
  intro f _
  by_cases h : pmatch pid f.parent
  · simp [Function.comp, h]
  · simp [Function.comp, h]

theorem below_mem {sk : List (Nat × Option Nat)} {pid x : Nat}
    (h : BelowS sk pid x) : ∃ p ∈ sk, p.1 = x := by
  cases h with
  | base p hp hpm => exact ⟨p, hp, rfl⟩
  | step p g hg hp h2 => exact ⟨p, hp, rfl⟩

theorem below_root_exists {sk : List (Nat × Option Nat)} {pid x : Nat}
    (h : BelowS sk pid x) : ∃ p ∈ sk, pmatch pid p.2 = true := by
  induction h with
  | base p hp hpm => exact ⟨p, hp, hpm⟩
  | step p g hg hp h2 ih => exact ih

theorem below_depth {sk : List (Nat × Option Nat)} {d : Nat → Nat}
    (hWF : WFsk sk d) {pid x : Nat} (h : BelowS sk pid x) : lvl d pid ≤ d x := by
  obtain ⟨hnd, hnz, hpar, hroot, hdep⟩ := hWF
  induction h with
  | base p hp hpm =>
    by_cases h0 : pid = 0
    · subst h0; simp [lvl]
    · rw [pmatch_pos h0] at hpm
      obtain ⟨r, hr, hr1⟩ := hpar p hp pid hpm
      have hd : d p.1 = d r.1 + 1 := hdep p hp r hr (by rw [hr1]; exact hpm)
      rw [hr1] at hd
      rw [lvl, if_neg h0]
      omega
  | step p g hg hp h2 ih =>
    obtain ⟨r, hr, hr1⟩ := below_mem hg
    have hd : d p.1 = d r.1 + 1 := hdep p hp r hr (by rw [hr1]; exact h2)
    rw [hr1] at hd
    omega

theorem child_depth {sk : List (Nat × Option Nat)} {d : Nat → Nat}
    (hWF : WFsk sk d) {pid : Nat} {p : Nat × Option Nat}
    (hp : p ∈ sk) (hpm : pmatch pid p.2 = true) : d p.1 = lvl d pid := by
  obtain ⟨hnd, hnz, hpar, hroot, hdep⟩ := hWF
  by_cases h0 : pid = 0
  · subst h0
    rw [pmatch_zero] at hpm
    rw [lvl]
    simp [hroot p hp hpm]
  · rw [pmatch_pos h0] at hpm
    obtain ⟨r, hr, hr1⟩ := hpar p hp pid hpm
    have hd : d p.1 = d r.1 + 1 := hdep p hp r hr (by rw [hr1]; exact hpm)
    rw [hr1] at hd
    rw [lvl, if_neg h0]
    exact hd

theorem below_trans {sk : List (Nat × Option Nat)} {pid c x : Nat}
    (hc : c ≠ 0) (h1 : BelowS sk pid c) (h2 : BelowS sk c x) :
    BelowS sk pid x := by
  induction h2 with
  | base p hp hpm =>
    rw [pmatch_pos hc] at hpm
    exact BelowS.step p c h1 hp hpm
  | step p g hg hp hpe ih => exact BelowS.step p g ih hp hpe

theorem sk_fst_unique {sk : List (Nat × Option Nat)}
    (hnd : (sk.map Prod.fst).Nodup) {p q : Nat × Option Nat}
    (hp : p ∈ sk) (hq : q ∈ sk) (h : p.1 = q.1) : p = q :=
  List.inj_on_of_nodup_map hnd hp hq h

theorem below_inv {sk : List (Nat × Option Nat)} {pid x : Nat}
    (h : BelowS sk pid x) :
    ∃ p ∈ sk, p.1 = x ∧
      (pmatch pid p.2 = true ∨ ∃ g, p.2 = some g ∧ BelowS sk pid g) := by
  cases h with
  | base p hp hpm => exact ⟨p, hp, rfl, Or.inl hpm⟩
  | step p g hg hp h2 => exact ⟨p, hp, rfl, Or.inr ⟨g, h2, hg⟩⟩

theorem below_unique {sk : List (Nat × Option Nat)} {d : Nat → Nat}
    (hWF : WFsk sk d) :
    ∀ (n x a b : Nat), d x ≤ n → BelowS sk a x → BelowS sk b x →
      a ≠ 0 → b ≠ 0 → d a = d b → a = b := by
  intro n
  induction n with
  | zero =>
    intro x a b hn h1 h2 ha hb hd
    obtain ⟨p, hp, hp1, hc1⟩ := below_inv h1
    obtain ⟨q, hq, hq1, hc2⟩ := below_inv h2
    have hpq : p = q := sk_fst_unique hWF.1 hp hq (by rw [hp1, hq1])
    subst hpq
    cases hc1 with
    | inl hm1 =>
      rw [pmatch_pos ha] at hm1
      cases hc2 with
      | inl hm2 =>
        rw [pmatch_pos hb] at hm2
        rw [hm1] at hm2
        exact Option.some.inj hm2
      | inr hm2 =>
        obtain ⟨g, hg2, hbg⟩ := hm2
        rw [hm1] at hg2
        have hga : g = a := (Option.some.inj hg2).symm
        subst hga
        have := below_depth hWF hbg
        rw [lvl, if_neg hb] at this
        omega
    | inr hm1 =>
      obtain ⟨g, hg1, hag⟩ := hm1
      cases hc2 with
      | inl hm2 =>
        rw [pmatch_pos hb] at hm2
        rw [hm2] at hg1
        have hgb : g = b := (Option.some.inj hg1).symm
        subst hgb
        have := below_depth hWF hag
        rw [lvl, if_neg ha] at this
        omega
      | inr hm2 =>
        obtain ⟨g2, hg2, hbg⟩ := hm2
        rw [hg1] at hg2
        have hgg : g2 = g := (Option.some.inj hg2).symm
        subst hgg
        obtain ⟨r, hr, hr1⟩ := below_mem hag
        have hdd : d p.1 = d r.1 + 1 :=
          hWF.2.2.2.2 p hp r hr (by rw [hr1]; exact hg1)
        rw [hp1, hr1] at hdd
        omega
  | succ n ih =>
    intro x a b hn h1 h2 ha hb hd
    obtain ⟨p, hp, hp1, hc1⟩ := below_inv h1
    obtain ⟨q, hq, hq1, hc2⟩ := below_inv h2
    have hpq : p = q := sk_fst_unique hWF.1 hp hq (by rw [hp1, hq1])
    subst hpq
    cases hc1 with
    | inl hm1 =>
      rw [pmatch_pos ha] at hm1
      cases hc2 with
      | inl hm2 =>
        rw [pmatch_pos hb] at hm2
        rw [hm1] at hm2
        exact Option.some.inj hm2
      | inr hm2 =>
        obtain ⟨g, hg2, hbg⟩ := hm2
        rw [hm1] at hg2
        have hga : g = a := (Option.some.inj hg2).symm
        subst hga
        have := below_depth hWF hbg
        rw [lvl, if_neg hb] at this
        omega
    | inr hm1 =>
      obtain ⟨g, hg1, hag⟩ := hm1
      cases hc2 with
      | inl hm2 =>
        rw [pmatch_pos hb] at hm2
        rw [hm2] at hg1
        have hgb : g = b := (Option.some.inj hg1).symm
        subst hgb
        have := below_depth hWF hag
        rw [lvl, if_neg ha] at this
        omega
      | inr hm2 =>
        obtain ⟨g2, hg2, hbg⟩ := hm2
        rw [hg1] at hg2
        have hgg : g2 = g := (Option.some.inj hg2).symm
        subst hgg
        obtain ⟨r, hr, hr1⟩ := below_mem hag
        have hdd : d p.1 = d r.1 + 1 :=
          hWF.2.2.2.2 p hp r hr (by rw [hr1]; exact hg1)
        rw [hp1, hr1] at hdd
        exact ih g2 a b (by omega) hag hbg ha hb hd

theorem below_decompose {sk : List (Nat × Option Nat)} {d : Nat → Nat}
    (hWF : WFsk sk d) {pid x : Nat} (h : BelowS sk pid x) :
    (∃ p ∈ sk, p.1 = x ∧ pmatch pid p.2 = true) ∨
    (∃ c ∈ sk, pmatch pid c.2 = true ∧ BelowS sk c.1 x) := by
  induction h with
  | base p hp hpm => exact Or.inl ⟨p, hp, rfl, hpm⟩
  | step p g hg hp h2 ih =>
    cases ih with
    | inl hc =>
      obtain ⟨q, hq, hq1, hqm⟩ := hc
      refine Or.inr ⟨q, hq, hqm, BelowS.base p hp ?_⟩
      rw [pmatch_pos (hWF.2.1 q hq)]
      rw [h2, hq1]
    | inr hc =>
      obtain ⟨c, hc2, hcm, hb⟩ := hc
      exact Or.inr ⟨c, hc2, hcm, BelowS.step p g hb hp h2⟩

theorem below_all_zero {sk : List (Nat × Option Nat)} {d : Nat → Nat}
    (hWF : WFsk sk d) :
    ∀ (n : Nat) (p : Nat × Option Nat), p ∈ sk → d p.1 ≤ n →
      BelowS sk 0 p.1 := by
  intro n
  induction n with
  | zero =>
    intro p hp hd
    cases hq : p.2 with
    | none => exact BelowS.base p hp ((pmatch_zero p.2).mpr hq)
    | some q =>
      obtain ⟨r, hr, hr1⟩ := hWF.2.2.1 p hp q hq
      have := hWF.2.2.2.2 p hp r hr (by rw [hr1]; exact hq)
      omega
  | succ n ih =>
    intro p hp hd
    cases hq : p.2 with
    | none => exact BelowS.base p hp ((pmatch_zero p.2).mpr hq)
    | some q =>
      obtain ⟨r, hr, hr1⟩ := hWF.2.2.1 p hp q hq
      have hdd := hWF.2.2.2.2 p hp r hr (by rw [hr1]; exact hq)
      have hb := ih r hr (by omega)
      rw [hr1] at hb
      exact BelowS.step p q hb hp hq

theorem folderChildren_update (pid : Nat) (pp : Str) (t : List FolderRow) :
    folderChildren pid (folderUpdate pid pp t) =
      (t.filter (fun f => pmatch pid f.parent)).map
        (fun f => (f.id, folderNewPath pid pp f.id)) := by
  unfold folderChildren folderUpdate
  rw [List.filter_map, List.map_map]
  have hfil :
      List.filter
        ((fun f : FolderRow => pmatch pid f.parent) ∘
          (fun f : FolderRow =>
            if pmatch pid f.parent
            then { f with path := folderNewPath pid pp f.id } else f)) t =
      List.filter (fun f : FolderRow => pmatch pid f.parent) t := by
    apply List.filter_congr
    intro f _
    by_cases h : pmatch pid f.parent
    · simp [Function.comp, h]
    · simp [Function.comp, h]
  rw [hfil]
  apply List.map_congr_left
  intro f hf
  have h := (List.mem_filter.mp hf).2
  simp [Function.comp, h]

theorem skel_len_eq {t : List FolderRow} {sk0 : List (Nat × Option Nat)}
    (hs : skel t = sk0) : t.length = sk0.length := by
  rw [← hs, skel_length]

theorem pair_at {t : List FolderRow} {sk0 : List (Nat × Option Nat)}
    (hs : skel t = sk0) (i : Nat) (hi : i < t.length) (hi0 : i < sk0.length) :
    (t.get ⟨i, hi⟩).id = (sk0.get ⟨i, hi0⟩).1 ∧
    (t.get ⟨i, hi⟩).parent = (sk0.get ⟨i, hi0⟩).2 := by
  subst hs
  constructor
  · rw [skel_get t i hi hi0]
  · rw [skel_get t i hi hi0]

theorem foldersFold (fuel : Nat) (hM : FoldersMain fuel)
    (sk0 : List (Nat × Option Nat)) (d : Nat → Nat) (hWF : WFsk sk0 d)
    (pid : Nat) (pp : Str) (hfe : 1 ≤ fuel) :
    ∀ (todo : List (Nat × Str)) (acc : List FolderRow),
      skel acc = sk0 →
      (∀ c ∈ todo, ∃ p ∈ sk0, pmatch pid p.2 = true ∧ c.1 = p.1 ∧
        c.2 = folderNewPath pid pp p.1) →
      (∀ c ∈ todo, ∀ p ∈ sk0, BelowS sk0 c.1 p.1 → d p.1 + 2 ≤ fuel + lvl d c.1) →
      (todo.map Prod.fst).Nodup →
      ∃ acc2, foldSteps (anonymiseFoldersRecurse fuel) todo acc = some acc2 ∧
        skel acc2 = sk0 ∧
        (∀ (i : Nat) (hi : i < acc.length) (hi2 : i < acc2.length),
          (∀ c ∈ todo, ¬ BelowS sk0 c.1 ((acc.get ⟨i, hi⟩).id)) →
          acc2.get ⟨i, hi2⟩ = acc.get ⟨i, hi⟩) ∧
        (∀ c ∈ todo,
          (∀ (i : Nat) (hi2 : i < acc2.length),
            pmatch c.1 ((acc2.get ⟨i, hi2⟩).parent) = true →
            (acc2.get ⟨i, hi2⟩).path = folderNewPath c.1 c.2 ((acc2.get ⟨i, hi2⟩).id)) ∧
          (∀ (i j : Nat) (hi : i < acc2.length) (hj : j < acc2.length),
            BelowS sk0 c.1 ((acc2.get ⟨j, hj⟩).id) →
            (acc2.get ⟨i, hi⟩).parent = some ((acc2.get ⟨j, hj⟩).id) →
            (acc2.get ⟨i, hi⟩).path =
              (acc2.get ⟨j, hj⟩).path ++ sep :: natStr ((acc2.get ⟨i, hi⟩).id))) := by
  intro todo
  induction todo with
  | nil =>
    intro acc hsk hch hfl hnd
    exact ⟨acc, rfl, hsk,
      fun i hi hi2 _ => rfl,
      fun c hc => absurd hc (List.not_mem_nil c)⟩
  | cons c rest ih =>
    intro acc hsk hch hfl hnd
    have hWFacc : WFsk (skel acc) d := by rw [hsk]; exact hWF
    have hfuelc : ∀ p ∈ skel acc, BelowS (skel acc) c.1 p.1 →
        d p.1 + 2 ≤ fuel + lvl d c.1 := by
      rw [hsk]; exact hfl c (List.mem_cons_self c rest)
    obtain ⟨acc1, heq1, hsk1, hfr1, hA1, hB1⟩ := hM c.1 c.2 acc d hWFacc hfuelc hfe
    rw [hsk] at hsk1 hfr1 hB1
    have hsk1' : skel acc1 = sk0 := hsk1
    simp only [List.map_cons] at hnd
    have hndc := List.nodup_cons.mp hnd
    obtain ⟨acc2, heq2, hsk2, hfr2, hcor2⟩ := ih acc1 hsk1'
      (fun c2 hc2 => hch c2 (List.mem_cons_of_mem c hc2))
      (fun c2 hc2 => hfl c2 (List.mem_cons_of_mem c hc2))
      hndc.2
    -- the repeated disjointness argument: a row below the head child is below
    -- no child from the tail
    have hnotrest : ∀ x : Nat, BelowS sk0 c.1 x → ∀ c2 ∈ rest, ¬ BelowS sk0 c2.1 x := by
      intro x hbx c2 hc2 hbx2
      obtain ⟨p, hp, hpm, hp1, hp2⟩ := hch c (List.mem_cons_self c rest)
      obtain ⟨q, hq, hqm, hq1, hq2⟩ := hch c2 (List.mem_cons_of_mem c hc2)
      have hc1nz : c.1 ≠ 0 := by rw [hp1]; exact hWF.2.1 p hp
      have hc2nz : c2.1 ≠ 0 := by rw [hq1]; exact hWF.2.1 q hq
      have hdc : d c.1 = d c2.1 := by
        rw [hp1, hq1, child_depth hWF hp hpm, child_depth hWF hq hqm]
      have hceq : c.1 = c2.1 :=
        below_unique hWF (d x) x c.1 c2.1 le_rfl hbx hbx2 hc1nz hc2nz hdc
      exact hndc.1 (hceq ▸ List.mem_map_of_mem Prod.fst hc2)
    have hlacc : acc.length = sk0.length := skel_len_eq hsk
    have hlacc1 : acc1.length = sk0.length := skel_len_eq hsk1'
    have hlacc2 : acc2.length = sk0.length := skel_len_eq hsk2
    refine ⟨acc2, ?_, hsk2, ?_, ?_⟩
    · show foldSteps (anonymiseFoldersRecurse fuel) (c :: rest) acc = some acc2
      simp only [foldSteps]
      rw [heq1]
      exact heq2
    · -- frame through both parts
      intro i hi hi2 hnb
      have hi1 : i < acc1.length := by omega
      have h1 : acc1.get ⟨i, hi1⟩ = acc.get ⟨i, hi⟩ :=
        hfr1 i hi hi1 (hnb c (List.mem_cons_self c rest))
      have h2 : acc2.get ⟨i, hi2⟩ = acc1.get ⟨i, hi1⟩ := by
        refine hfr2 i hi1 hi2 ?_
        intro c2 hc2
        rw [h1]
        exact hnb c2 (List.mem_cons_of_mem c hc2)
      rw [h2, h1]
    · intro c0 hc0
      rcases List.mem_cons.mp hc0 with hceq | hcrest
      · subst hceq
        -- properties of the head child, established in acc1 and preserved
        -- by the tail fold because the involved rows are below c0 only
        constructor
        · intro i hi2 hpm
          have hi0 : i < sk0.length := by omega
          have hi1 : i < acc1.length := by omega
          obtain ⟨hid2, hpar2⟩ := pair_at hsk2 i hi2 hi0
          have hbel : BelowS sk0 c0.1 ((acc2.get ⟨i, hi2⟩).id) := by
            rw [hid2]
            exact BelowS.base (sk0.get ⟨i, hi0⟩) (List.get_mem sk0 i hi0)
              (by rw [← hpar2]; exact hpm)
          have hfr : acc2.get ⟨i, hi2⟩ = acc1.get ⟨i, hi1⟩ := by
            refine hfr2 i hi1 hi2 ?_
            intro c2 hc2
            have hidp : (acc1.get ⟨i, hi1⟩).id = (acc2.get ⟨i, hi2⟩).id := by
              rw [hid2, (pair_at hsk1' i hi1 hi0).1]
            rw [hidp]
            exact hnotrest _ hbel c2 hc2
          rw [hfr] at hpm ⊢
          exact hA1 i hi1 hpm
        · intro i j hi2 hj2 hbj hpar
          have hi0 : i < sk0.length := by omega
          have hj0 : j < sk0.length := by omega
          have hi1 : i < acc1.length := by omega
          have hj1 : j < acc1.length := by omega
          have hbi : BelowS sk0 c0.1 ((acc2.get ⟨i, hi2⟩).id) := by
            obtain ⟨hid2, hpar2⟩ := pair_at hsk2 i hi2 hi0
            rw [hid2]
            exact BelowS.step (sk0.get ⟨i, hi0⟩) _ hbj (List.get_mem sk0 i hi0)
              (by rw [← hpar2]; exact hpar)
          have hfri : acc2.get ⟨i, hi2⟩ = acc1.get ⟨i, hi1⟩ := by
            refine hfr2 i hi1 hi2 ?_
            intro c2 hc2
            have hidp : (acc1.get ⟨i, hi1⟩).id = (acc2.get ⟨i, hi2⟩).id := by
              rw [(pair_at hsk2 i hi2 hi0).1, (pair_at hsk1' i hi1 hi0).1]
            rw [hidp]
            exact hnotrest _ hbi c2 hc2
          have hfrj : acc2.get ⟨j, hj2⟩ = acc1.get ⟨j, hj1⟩ := by
            refine hfr2 j hj1 hj2 ?_
            intro c2 hc2
            have hidp : (acc1.get ⟨j, hj1⟩).id = (acc2.get ⟨j, hj2⟩).id := by
              rw [(pair_at hsk2 j hj2 hj0).1, (pair_at hsk1' j hj1 hj0).1]
            rw [hidp]
            exact hnotrest _ hbj c2 hc2
          rw [hfrj] at hbj
          rw [hfri, hfrj] at hpar
          rw [hfri, hfrj]
          exact hB1 i j hi1 hj1 hbj hpar
      · exact hcor2 c0 hcrest

theorem folderUpdate_get_id_parent (pid : Nat) (pp : Str) (t : List FolderRow)
    (i : Nat) (hi : i < t.length) (hi2 : i < (folderUpdate pid pp t).length) :
    ((folderUpdate pid pp t).get ⟨i, hi2⟩).id = (t.get ⟨i, hi⟩).id ∧
    ((folderUpdate pid pp t).get ⟨i, hi2⟩).parent = (t.get ⟨i, hi⟩).parent := by
  rw [folderUpdate_get pid pp t i hi hi2]
  by_cases h : pmatch pid ((t.get ⟨i, hi⟩).parent) = true
  · rw [if_pos h]
    exact ⟨rfl, rfl⟩
  · rw [if_neg h]
    exact ⟨rfl, rfl⟩

theorem folderUpdate_get_pos (pid : Nat) (pp : Str) (t : List FolderRow)
    (i : Nat) (hi : i < t.length) (hi2 : i < (folderUpdate pid pp t).length)
    (h : pmatch pid ((t.get ⟨i, hi⟩).parent) = true) :
    (folderUpdate pid pp t).get ⟨i, hi2⟩ =
      { t.get ⟨i, hi⟩ with path := folderNewPath pid pp ((t.get ⟨i, hi⟩).id) } := by
  rw [folderUpdate_get pid pp t i hi hi2, if_pos h]

theorem folderUpdate_get_neg (pid : Nat) (pp : Str) (t : List FolderRow)
    (i : Nat) (hi : i < t.length) (hi2 : i < (folderUpdate pid pp t).length)
    (h : ¬ pmatch pid ((t.get ⟨i, hi⟩).parent) = true) :
    (folderUpdate pid pp t).get ⟨i, hi2⟩ = t.get ⟨i, hi⟩ := by
  rw [folderUpdate_get pid pp t i hi hi2, if_neg h]

theorem foldersMain_succ (fuel : Nat) (hM : FoldersMain fuel) :
    FoldersMain (fuel + 1) := by
  intro pid pp t d hWF hfuel hfe1
  have hskt1 : skel (folderUpdate pid pp t) = skel t := skel_folderUpdate pid pp t
  have hcs := folderChildren_update pid pp t
  have hlt1 : (folderUpdate pid pp t).length = t.length := folderUpdate_length pid pp t
  have hlsk : (skel t).length = t.length := skel_length t
  -- characterisation of the child snapshot entries
  have hchar : ∀ c ∈ folderChildren pid (folderUpdate pid pp t),
      ∃ p ∈ skel t, pmatch pid p.2 = true ∧ c.1 = p.1 ∧
        c.2 = folderNewPath pid pp p.1 := by
    intro c hc
    rw [hcs] at hc
    obtain ⟨f, hf, he⟩ := List.mem_map.mp hc
    have hff := List.mem_filter.mp hf
    refine ⟨(f.id, f.parent), List.mem_map_of_mem _ hff.1, hff.2, ?_, ?_⟩
    · rw [← he]
    · rw [← he]
  -- distinctness of child ids
  have hndcs : ((folderChildren pid (folderUpdate pid pp t)).map Prod.fst).Nodup := by
    rw [hcs, List.map_map]
    have h1 : (skel t).map Prod.fst = t.map (fun f => f.id) := by
      unfold skel
      rw [List.map_map]
      rfl
    have hnd0 : (t.map (fun f => f.id)).Nodup := by rw [← h1]; exact hWF.1
    have hsub : ((t.filter (fun f => pmatch pid f.parent)).map
        (fun f => f.id)).Sublist (t.map (fun f => f.id)) :=
      (List.filter_sublist t).map _
    exact List.Nodup.sublist hsub hnd0
  -- fuel bookkeeping for the recursive calls
  have hflcs : ∀ c ∈ folderChildren pid (folderUpdate pid pp t),
      ∀ p ∈ skel t, BelowS (skel t) c.1 p.1 → d p.1 + 2 ≤ fuel + lvl d c.1 := by
    intro c hc p hp hb
    obtain ⟨q, hq, hqm, hq1, hq2⟩ := hchar c hc
    have hqnz : c.1 ≠ 0 := by rw [hq1]; exact hWF.2.1 q hq
    have hbelq : BelowS (skel t) pid c.1 := by rw [hq1]; exact BelowS.base q hq hqm
    have hbp : BelowS (skel t) pid p.1 := below_trans hqnz hbelq hb
    have h2 := hfuel p hp hbp
    have hlc : lvl d c.1 = lvl d pid + 1 := by
      rw [lvl, if_neg hqnz, hq1, child_depth hWF hq hqm]
    omega
  have hunf : anonymiseFoldersRecurse (fuel + 1) pid pp t =
      foldSteps (anonymiseFoldersRecurse fuel)
        (folderChildren pid (folderUpdate pid pp t)) (folderUpdate pid pp t) := rfl
  by_cases hemp : folderChildren pid (folderUpdate pid pp t) = []
  · -- no children: the fold is trivial; the table is just the bulk update
    have hnopm : ∀ f ∈ t, ¬ pmatch pid f.parent = true := by
      rw [hcs] at hemp
      have hfil : t.filter (fun f => pmatch pid f.parent) = [] := by
        cases hfe : t.filter (fun f => pmatch pid f.parent) with
        | nil => rfl
        | cons a as => rw [hfe] at hemp; cases hemp
      exact fun f hf => List.filter_eq_nil_iff.mp hfil f hf
    refine ⟨folderUpdate pid pp t, ?_, hskt1, ?_, ?_, ?_⟩
    · rw [hunf, hemp]
      rfl
    · intro i hi hi2 _
      exact folderUpdate_get_neg pid pp t i hi hi2
        (hnopm (t.get ⟨i, hi⟩) (List.get_mem t i hi))
    · intro i hi2 hpm
      have hi : i < t.length := by omega
      obtain ⟨hid, hpar⟩ := folderUpdate_get_id_parent pid pp t i hi hi2
      rw [hpar] at hpm
      exact absurd hpm (hnopm (t.get ⟨i, hi⟩) (List.get_mem t i hi))
    · intro i j hi2 hj2 hbj hpar
      obtain ⟨p, hp, hpm⟩ := below_root_exists hbj
      obtain ⟨f, hf, hf1, hf2⟩ := mem_of_skel_mem hp
      rw [← hf2] at hpm
      exact absurd hpm (hnopm f hf)
  · -- at least one child: derive fuel ≥ 1 and run the fold lemma
    obtain ⟨c, hc⟩ := List.exists_mem_of_ne_nil _ hemp
    obtain ⟨q, hq, hqm, hq1, hq2⟩ := hchar c hc
    have h1f : 1 ≤ fuel := by
      have ha := hfuel q hq (BelowS.base q hq hqm)
      have hb := child_depth hWF hq hqm
      omega
    obtain ⟨acc2, heqf, hskf, hfrf, hcorf⟩ :=
      foldersFold fuel hM (skel t) d hWF pid pp h1f
        (folderChildren pid (folderUpdate pid pp t)) (folderUpdate pid pp t)
        hskt1 hchar hflcs hndcs
    have hlacc2 : acc2.length = t.length := by
      have := skel_len_eq hskf
      omega
    -- a row that is a direct child of pid is below no child of pid
    have hchild_frame : ∀ (x : Nat) (px : Nat × Option Nat), px ∈ skel t →
        px.1 = x → pmatch pid px.2 = true →
        ∀ c2 ∈ folderChildren pid (folderUpdate pid pp t),
          ¬ BelowS (skel t) c2.1 x := by
      intro x px hpx hpx1 hpxm c2 hc2 hbx
      obtain ⟨q2, hq2m, hq2pm, hq21, hq22⟩ := hchar c2 hc2
      have hnz2 : c2.1 ≠ 0 := by rw [hq21]; exact hWF.2.1 q2 hq2m
      have hd1 := below_depth hWF hbx
      have hd2 : d x = lvl d pid := by rw [← hpx1]; exact child_depth hWF hpx hpxm
      have hd3 : d c2.1 = lvl d pid := by rw [hq21]; exact child_depth hWF hq2m hq2pm
      rw [lvl, if_neg hnz2] at hd1
      omega
    refine ⟨acc2, ?_, hskf, ?_, ?_, ?_⟩
    · rw [hunf]
      exact heqf
    · -- frame: rows not below pid are untouched by update and fold
      intro i hi hi2 hnb
      have hi1 : i < (folderUpdate pid pp t).length := by omega
      have hnpm : ¬ pmatch pid ((t.get ⟨i, hi⟩).parent) = true := by
        intro hpm
        exact hnb (BelowS.base ((t.get ⟨i, hi⟩).id, (t.get ⟨i, hi⟩).parent)
          (by unfold skel; exact List.mem_map_of_mem _ (List.get_mem t i hi)) hpm)
      have hupd : (folderUpdate pid pp t).get ⟨i, hi1⟩ = t.get ⟨i, hi⟩ :=
        folderUpdate_get_neg pid pp t i hi hi1 hnpm
      have hfr : acc2.get ⟨i, hi2⟩ = (folderUpdate pid pp t).get ⟨i, hi1⟩ := by
        refine hfrf i hi1 hi2 ?_
        intro c2 hc2 hbx
        obtain ⟨q2, hq2m, hq2pm, hq21, hq22⟩ := hchar c2 hc2
        have hnz2 : c2.1 ≠ 0 := by rw [hq21]; exact hWF.2.1 q2 hq2m
        have hbel2 : BelowS (skel t) pid c2.1 := by
          rw [hq21]; exact BelowS.base q2 hq2m hq2pm
        rw [hupd] at hbx
        exact hnb (below_trans hnz2 hbel2 hbx)
      rw [hfr, hupd]
    · -- direct children of pid get `folderNewPath pid pp`
      intro i hi2 hpm
      have hi : i < t.length := by omega
      have hi1 : i < (folderUpdate pid pp t).length := by omega
      have hi0 : i < (skel t).length := by omega
      obtain ⟨hid2, hpar2⟩ := pair_at hskf i hi2 hi0
      have hfr : acc2.get ⟨i, hi2⟩ = (folderUpdate pid pp t).get ⟨i, hi1⟩ := by
        refine hfrf i hi1 hi2 ?_
        intro c2 hc2
        have hid1 : ((folderUpdate pid pp t).get ⟨i, hi1⟩).id =
            ((skel t).get ⟨i, hi0⟩).1 := (pair_at hskt1 i hi1 hi0).1
        rw [hid1, ← hid2]
        refine hchild_frame _ ((skel t).get ⟨i, hi0⟩) (List.get_mem _ i hi0) hid2.symm ?_ c2 hc2
        rw [← hpar2]
        exact hpm
      have hpmt : pmatch pid ((t.get ⟨i, hi⟩).parent) = true := by
        have := (folderUpdate_get_id_parent pid pp t i hi hi1).2
        rw [hfr, this] at hpm
        exact hpm
      rw [hfr, folderUpdate_get_pos pid pp t i hi hi1 hpmt]
    · -- the parent/child path relation below pid
      intro i j hi2 hj2 hbj hpar
      rcases below_decompose hWF hbj with hdirect | hviachild
      · -- the parent row j is itself a direct child of pid
        obtain ⟨p, hp, hp1, hpm⟩ := hdirect
        obtain ⟨f, hf, hf1, hf2⟩ := mem_of_skel_mem hp
        have hfelem : ((f.id, folderNewPath pid pp f.id) : Nat × Str) ∈
            folderChildren pid (folderUpdate pid pp t) := by
          rw [hcs]
          exact List.mem_map_of_mem _ (List.mem_filter.mpr ⟨hf, by rw [hf2]; exact hpm⟩)
        have hnzj : f.id ≠ 0 := by
          rw [hf1]; exact hWF.2.1 p hp
        -- row i has parent = some (id j) = some f.id : it matches the child's update
        have hpmij : pmatch f.id ((acc2.get ⟨i, hi2⟩).parent) = true := by
          rw [pmatch_pos hnzj, hpar, hf1, hp1]
        have hpathi := (hcorf _ hfelem).1 i hi2 hpmij
        -- row j keeps the path assigned by the pid-level update
        have hj : j < t.length := by omega
        have hj1 : j < (folderUpdate pid pp t).length := by omega
        have hj0 : j < (skel t).length := by omega
        obtain ⟨hjid2, hjpar2⟩ := pair_at hskf j hj2 hj0
        have hjpair : (skel t).get ⟨j, hj0⟩ = p := by
          refine sk_fst_unique hWF.1 (List.get_mem _ j hj0) hp ?_
          rw [← hjid2, hp1]
        have hfrj : acc2.get ⟨j, hj2⟩ = (folderUpdate pid pp t).get ⟨j, hj1⟩ := by
          refine hfrf j hj1 hj2 ?_
          intro c2 hc2
          have hjid1 : ((folderUpdate pid pp t).get ⟨j, hj1⟩).id =
              ((skel t).get ⟨j, hj0⟩).1 := (pair_at hskt1 j hj1 hj0).1
          rw [hjid1, hjpair]
          exact hchild_frame p.1 p hp rfl hpm c2 hc2
        have hpmjt : pmatch pid ((t.get ⟨j, hj⟩).parent) = true := by
          have hpt : (t.get ⟨j, hj⟩).parent = ((skel t).get ⟨j, hj0⟩).2 :=
            (pair_at rfl j hj hj0).2
          rw [hpt, hjpair]
          exact hpm
        have hjrow : acc2.get ⟨j, hj2⟩ =
            { t.get ⟨j, hj⟩ with path := folderNewPath pid pp ((t.get ⟨j, hj⟩).id) } := by
          rw [hfrj, folderUpdate_get_pos pid pp t j hj hj1 hpmjt]
        have hidj : (t.get ⟨j, hj⟩).id = f.id := by
          have h0 := (pair_at rfl j hj hj0).1
          rw [h0, hjpair]
          exact hf1.symm
        rw [hpathi, hjrow]
        simp only [folderNewPath, if_neg hnzj]
        rw [hidj]
      · -- the parent row j lies below some direct child of pid
        obtain ⟨cq, hcq, hcqm, hbelow⟩ := hviachild
        obtain ⟨f, hf, hf1, hf2⟩ := mem_of_skel_mem hcq
        have hfelem : ((f.id, folderNewPath pid pp f.id) : Nat × Str) ∈
            folderChildren pid (folderUpdate pid pp t) := by
          rw [hcs]
          exact List.mem_map_of_mem _ (List.mem_filter.mpr ⟨hf, by rw [hf2]; exact hcqm⟩)
        refine (hcorf _ hfelem).2 i j hi2 hj2 ?_ hpar
        rw [hf1]
        exact hbelow

theorem foldersMain_all : ∀ fuel : Nat, FoldersMain fuel := by
  intro fuel
  induction fuel with
  | zero => intro pid pp t d hWF hfuel hfe; omega
  | succ n ih => exact foldersMain_succ n ih

/-- C5: after the folder rewrite stage (on a well-formed folder forest, with
enough fuel to cover its depth), every root folder's path is the string form
of its own identifier, and every folder whose parent row exists has path equal
to the parent's path, followed by the separator and the string form of its own
identifier — at every depth of the tree. -/
theorem anonymiseFolders_tree_invariant (fuel : Nat) (t : List FolderRow)
    (d : Nat → Nat)
    (hWF : WFsk (skel t) d)
    (hfuel : ∀ f ∈ t, d f.id + 2 ≤ fuel)
    (hfe : 1 ≤ fuel) :
    ∃ t2, anonymiseFolders fuel t = some t2 ∧
      t2.length = t.length ∧
      (∀ f ∈ t2, f.parent = none → f.path = natStr f.id) ∧
      (∀ f g, f ∈ t2 → g ∈ t2 → f.parent = some g.id →
        f.path = g.path ++ sep :: natStr f.id) := by
  have hfuel0 : ∀ p ∈ skel t, BelowS (skel t) 0 p.1 →
      d p.1 + 2 ≤ fuel + lvl d 0 := by
    intro p hp _
    obtain ⟨f, hf, hf1, hf2⟩ := mem_of_skel_mem hp
    have h1 := hfuel f hf
    have h2 : lvl d 0 = 0 := by rw [lvl, if_pos rfl]
    rw [h2, ← hf1]
    omega
  obtain ⟨t2, heq, hsk, hfr, hA, hB⟩ :=
    foldersMain_all fuel 0 [] t d hWF hfuel0 hfe
  have hlen : t2.length = t.length := by
    have h1 := skel_len_eq hsk
    have h2 := skel_length t
    omega
  refine ⟨t2, heq, hlen, ?_, ?_⟩
  · intro f hf hroot
    obtain ⟨n, hn⟩ := List.get_of_mem hf
    have hpm : pmatch 0 ((t2.get n).parent) = true := by
      rw [hn]
      exact (pmatch_zero f.parent).mpr hroot
    have := hA n.1 n.2 hpm
    rw [hn] at this
    rw [this, folderNewPath, if_pos rfl]
  · intro f g hf hg hpar
    obtain ⟨nf, hnf⟩ := List.get_of_mem hf
    obtain ⟨ng, hng⟩ := List.get_of_mem hg
    have hbel : BelowS (skel t) 0 ((t2.get ng).id) := by
      have hmem : ((g.id, g.parent) : Nat × Option Nat) ∈ skel t2 :=
        List.mem_map_of_mem _ hg
      rw [hsk] at hmem
      have := below_all_zero hWF (d g.id) (g.id, g.parent) hmem le_rfl
      rw [hng]
      exact this
    have hparent : (t2.get nf).parent = some ((t2.get ng).id) := by
      rw [hnf, hng]
      exact hpar
    have := hB nf.1 ng.1 nf.2 ng.2 hbel hparent
    rw [hnf, hng] at this
    exact this

theorem anonymiseFolders_tree_invariant_witness :
    ∃ t2, anonymiseFolders 3
        [⟨5, none, "old".toList⟩, ⟨9, some 5, "x y".toList⟩] = some t2 ∧
      t2.length = ([⟨5, none, "old".toList⟩,
        ⟨9, some 5, "x y".toList⟩] : List FolderRow).length ∧
      (∀ f ∈ t2, f.parent = none → f.path = natStr f.id) ∧
      (∀ f g, f ∈ t2 → g ∈ t2 → f.parent = some g.id →
        f.path = g.path ++ sep :: natStr f.id) :=
  anonymiseFolders_tree_invariant 3
    [⟨5, none, "old".toList⟩, ⟨9, some 5, "x y".toList⟩]
    (fun n => if n = 9 then 1 else 0) (by unfold WFsk; decide) (by decide) (by decide)

/-- C4 counterexample: scene *titles* are obfuscated once per row, not once
per distinct value.  Two scenes sharing title "a" end up with different
titles ("a" and "b") under the draw stream `n ↦ n`. -/
theorem anonymiseScenes_title_not_shared :
    (anonymiseScenes (fun n => n) 2
      [⟨1, some "a".toList, none, none, none, none, none⟩,
       ⟨2, some "a".toList, none, none, none, none, none⟩] 0).map
      (fun p => p.1.map SceneRow.title) =
      some [some "a".toList, some "b".toList] ∧
    (some "a".toList : Option Str) ≠ some "b".toList := by
  constructor
  · decide
  · decide

/-! ### Order lemmas for the scan cursors -/

theorem strLt_irrefl (s : Str) : strLt s s = false := by
  induction s with
  | nil => rfl
  | cons c cs ih => simp [strLt, ih]

theorem strLt_asymm : ∀ {a b : Str}, strLt a b = true → strLt b a = false
  | [], [], h => by simp [strLt] at h
  | [], _ :: _, _ => rfl
  | _ :: _, [], h => by simp [strLt] at h
  | a :: as, b :: bs, h => by
    simp only [strLt] at h ⊢
    by_cases h1 : a.toNat < b.toNat
    · rw [if_neg (by omega), if_pos h1]
    · rw [if_neg h1] at h
      by_cases h2 : b.toNat < a.toNat
      · rw [if_pos h2] at h
        cases h
      · rw [if_neg h2] at h
        rw [if_neg h2, if_neg h1]
        exact strLt_asymm h

theorem strLt_trans : ∀ {a b c : Str},
    strLt a b = true → strLt b c = true → strLt a c = true
  | [], [], _, h1, _ => by simp [strLt] at h1
  | [], _ :: _, [], _, h2 => by simp [strLt] at h2
  | [], _ :: _, _ :: _, _, _ => rfl
  | _ :: _, [], _, h1, _ => by simp [strLt] at h1
  | _ :: _, _ :: _, [], _, h2 => by simp [strLt] at h2
  | a :: as, b :: bs, c :: cs, h1, h2 => by
    simp only [strLt] at h1 h2 ⊢
    by_cases hab : a.toNat < b.toNat
    · by_cases hbc : b.toNat < c.toNat
      · rw [if_pos (by omega)]
      · rw [if_neg hbc] at h2
        by_cases hcb : c.toNat < b.toNat
        · rw [if_pos hcb] at h2
          cases h2
        · rw [if_pos (by omega)]
    · rw [if_neg hab] at h1
      by_cases hba : b.toNat < a.toNat
      · rw [if_pos hba] at h1
        cases h1
      · rw [if_neg hba] at h1
        by_cases hbc : b.toNat < c.toNat
        · rw [if_pos (by omega)]
        · rw [if_neg hbc] at h2
          by_cases hcb : c.toNat < b.toNat
          · rw [if_pos hcb] at h2
            cases h2
          · rw [if_neg hcb] at h2
            rw [if_neg (by omega), if_neg (by omega)]
            exact strLt_trans h1 h2

theorem tupGt_iff {key cur : Nat × Str} :
    tupGt key cur = true ↔
      cur.1 < key.1 ∨ (key.1 = cur.1 ∧ strLt cur.2 key.2 = true) := by
  simp [tupGt, Bool.or_eq_true, Bool.and_eq_true, beq_iff_eq, decide_eq_true_eq]

theorem tupGt_irrefl (x : Nat × Str) : tupGt x x = false := by
  have h := strLt_irrefl x.2
  simp [tupGt, h]

theorem tupGt_asymm {a b : Nat × Str} (h : tupGt a b = true) :
    tupGt b a = false := by
  rw [tupGt_iff] at h
  cases hab : tupGt b a
  · rfl
  · rw [tupGt_iff] at hab
    rcases h with h | ⟨h1, h2⟩ <;> rcases hab with hh | ⟨hh1, hh2⟩
    · omega
    · omega
    · omega
    · have hcontra := strLt_asymm h2
      rw [hh2] at hcontra
      simp at hcontra

theorem tupGt_trans {a b c : Nat × Str} (h1 : tupGt a b = true)
    (h2 : tupGt b c = true) : tupGt a c = true := by
  rw [tupGt_iff] at h1 h2 ⊢
  rcases h1 with h1 | ⟨h1a, h1b⟩ <;> rcases h2 with h2 | ⟨h2a, h2b⟩
  · left; omega
  · left; omega
  · left; omega
  · right
    exact ⟨by omega, strLt_trans h2b h1b⟩

/-! ### Sorted-key suffix lemmas -/

theorem keyFilter_suffix :
    ∀ (ks : List (Nat × Str)) (cur : Nat × Str),
      List.Pairwise (fun a b => tupGt b a = true) ks →
      ∃ pre, ks = pre ++ keyFilter cur ks := by
  intro ks
  induction ks with
  | nil => exact fun cur _ => ⟨[], rfl⟩
  | cons a ks2 ih =>
    intro cur hp
    have hpc := List.pairwise_cons.mp hp
    by_cases ha : tupGt a cur = true
    · refine ⟨[], ?_⟩
      unfold keyFilter
      simp only [List.filter, ha]
      have hall : ∀ x ∈ ks2, tupGt x cur = true := fun x hx =>
        tupGt_trans (hpc.1 x hx) ha
      rw [List.filter_eq_self.mpr hall, List.nil_append]
    · obtain ⟨pre2, hpre⟩ := ih cur hpc.2
      refine ⟨a :: pre2, ?_⟩
      have ha2 : tupGt a cur = false := by
        revert ha
        cases tupGt a cur <;> simp
      unfold keyFilter at hpre ⊢
      simp only [List.filter, ha2]
      rw [List.cons_append, ← hpre]

theorem keyFilter_after_elem :
    ∀ (pre : List (Nat × Str)) (l : Nat × Str) (post : List (Nat × Str)),
      List.Pairwise (fun a b => tupGt b a = true) (pre ++ l :: post) →
      keyFilter l (pre ++ l :: post) = post := by
  intro pre
  induction pre with
  | nil =>
    intro l post hp
    rw [List.nil_append] at hp ⊢
    unfold keyFilter
    simp only [List.filter, tupGt_irrefl l]
    exact List.filter_eq_self.mpr fun x hx => (List.pairwise_cons.mp hp).1 x hx
  | cons a pre2 ih =>
    intro l post hp
    rw [List.cons_append] at hp
    have hpc := List.pairwise_cons.mp hp
    have hla : tupGt l a = true := hpc.1 l (by simp)
    unfold keyFilter
    rw [List.cons_append]
    simp only [List.filter, tupGt_asymm hla]
    exact ih l post hpc.2

/-! ### Totality of obfuscation under an in-range random source -/

theorem obfuscateString_total (dict : List Char) (rs : RS)
    (hrs : ∀ i, rs i < dict.length) :
    ∀ (k : Nat) (s : Str), ∃ out k2,
      obfuscateString dict rs k s = some (out, k2) := by
  intro k s
  induction s generalizing k with
  | nil => exact ⟨[], k, rfl⟩
  | cons c cs ih =>
    by_cases hsp : goIsSpace c
    · obtain ⟨o, k2, h⟩ := ih k
      exact ⟨c :: o, k2, by simp [obfuscateString, hsp, h]⟩
    · obtain ⟨o, k2, h⟩ := ih (k + 1)
      refine ⟨dict.get ⟨rs k, hrs k⟩ :: o, k2, ?_⟩
      simp [obfuscateString, hsp, hrs k, h]

/-! ### Fingerprint scan lemmas -/

theorem fpVisit_keys (rs : RS) (t : List FpRow) (k : Nat) (v : Str)
    (t2 : List FpRow) (k2 : Nat) (h : fpVisit rs t k v = some (t2, k2)) :
    t2.map fpKey = t.map fpKey := by
  unfold fpVisit anonymiseFingerprint at h
  cases hob : obfuscateString hexDict rs k v with
  | none => rw [hob] at h; cases h
  | some p =>
    rw [hob] at h
    cases p with
    | mk r kk =>
      simp only [Option.some.injEq, Prod.mk.injEq] at h
      obtain ⟨h1, h2⟩ := h
      rw [← h1, List.map_map]
      apply List.map_congr_left
      intro f _
      by_cases hc : f.fingerprint = v <;> simp [Function.comp, fpKey, hc]

theorem fpVisit_total (rs : RS) (hrs : ∀ i, rs i < hexDict.length)
    (t : List FpRow) (k : Nat) (v : Str) :
    ∃ t2 k2, fpVisit rs t k v = some (t2, k2) := by
  obtain ⟨o, k2, h⟩ := obfuscateString_total hexDict rs hrs k v
  exact ⟨_, k2, by unfold fpVisit anonymiseFingerprint; rw [h]⟩

theorem fpVisitRows_some (rs : RS) :
    ∀ (rows : List FpRow) (t : List FpRow) (k : Nat) (cur : Nat × Str)
      (log : List (Nat × Str)) (t2 : List FpRow) (k2 : Nat) (cur2 : Nat × Str)
      (log2 : List (Nat × Str)),
      fpVisitRows rs rows (t, k, cur, log) = some (t2, k2, cur2, log2) →
      t2.map fpKey = t.map fpKey ∧ log2 = log ++ rows.map fpKey ∧
      (rows = [] → cur2 = cur) ∧
      (∀ rl, rows.getLast? = some rl → cur2 = fpKey rl) := by
  intro rows
  induction rows with
  | nil =>
    intro t k cur log t2 k2 cur2 log2 h
    simp only [fpVisitRows, Option.some.injEq, Prod.mk.injEq] at h
    obtain ⟨h1, h2, h3, h4⟩ := h
    subst h1; subst h2; subst h3; subst h4
    exact ⟨rfl, by simp, fun _ => rfl, fun rl hrl => by simp at hrl⟩
  | cons r rest ih =>
    intro t k cur log t2 k2 cur2 log2 h
    simp only [fpVisitRows] at h
    cases hv : fpVisit rs t k r.fingerprint with
    | none => rw [hv] at h; cases h
    | some p =>
      rw [hv] at h
      cases p with
      | mk t1 k1 =>
        obtain ⟨hkeys, hlog, _, hlast⟩ :=
          ih t1 k1 (fpKey r) (log ++ [fpKey r]) t2 k2 cur2 log2 h
        refine ⟨hkeys.trans (fpVisit_keys rs t k r.fingerprint t1 k1 hv), ?_, ?_, ?_⟩
        · rw [hlog, List.append_assoc]
          rfl
        · intro hc; cases hc
        · intro rl hrl
          cases hrest : rest with
          | nil =>
            rw [hrest] at h hrl
            simp only [List.getLast?_singleton, Option.some.injEq] at hrl
            subst hrl
            simp only [fpVisitRows, Option.some.injEq, Prod.mk.injEq] at h
            exact h.2.2.1.symm
          | cons r2 rest2 =>
            apply hlast
            rw [hrest] at hrl
            rw [List.getLast?_cons_cons] at hrl
            rw [hrest]
            exact hrl

theorem fpVisitRows_total (rs : RS) (hrs : ∀ i, rs i < hexDict.length) :
    ∀ (rows : List FpRow) (st : List FpRow × Nat × (Nat × Str) × List (Nat × Str)),
      ∃ st2, fpVisitRows rs rows st = some st2 := by
  intro rows
  induction rows with
  | nil => exact fun st => ⟨st, rfl⟩
  | cons r rest ih =>
    intro st
    obtain ⟨t, k, cur, log⟩ := st
    obtain ⟨t1, k1, hv⟩ := fpVisit_total rs hrs t k r.fingerprint
    obtain ⟨st2, h2⟩ := ih (t1, k1, fpKey r, log ++ [fpKey r])
    exact ⟨st2, by simp only [fpVisitRows]; rw [hv]; exact h2⟩

theorem fpLoop_succ_nil (rs : RS) (n : Nat) (cur : Nat × Str) (t : List FpRow)
    (k : Nat) (log : List (Nat × Str)) (h : fpPage cur t = []) :
    fpLoop rs (n + 1) cur t k log = some (t, k, log) := by
  simp only [fpLoop]
  rw [h]

theorem fpLoop_succ_cons (rs : RS) (n : Nat) (cur : Nat × Str) (t : List FpRow)
    (k : Nat) (log : List (Nat × Str)) (r : FpRow) (rest : List FpRow)
    (h : fpPage cur t = r :: rest) :
    fpLoop rs (n + 1) cur t k log =
      match fpVisitRows rs (r :: rest) (t, k, cur, log) with
      | none => none
      | some (t2, k2, cur2, log2) => fpLoop rs n cur2 t2 k2 log2 := by
  simp only [fpLoop]
  rw [h]

theorem fpLoop_sorted (rs : RS) (hrs : ∀ i, rs i < hexDict.length) :
    ∀ (fuel : Nat) (cur : Nat × Str) (t : List FpRow) (k : Nat)
      (log : List (Nat × Str)),
      List.Pairwise (fun a b => tupGt b a = true) (t.map fpKey) →
      (keyFilter cur (t.map fpKey)).length < fuel →
      ∃ t2 k2, fpLoop rs fuel cur t k log =
          some (t2, k2, log ++ keyFilter cur (t.map fpKey)) ∧
        t2.map fpKey = t.map fpKey := by
  intro fuel
  induction fuel with
  | zero =>
    intro cur t k log hp hl
    exact absurd hl (Nat.not_lt_zero _)
  | succ n ih =>
    intro cur t k log hp hl
    have hfk : (t.filter (fun r => tupGt (fpKey r) cur)).map fpKey =
        keyFilter cur (t.map fpKey) := by
      unfold keyFilter
      rw [List.filter_map]
      rfl
    cases hpg : t.filter (fun r => tupGt (fpKey r) cur) with
    | nil =>
      have hpage : fpPage cur t = [] := by unfold fpPage; rw [hpg]; rfl
      have hkf : keyFilter cur (t.map fpKey) = [] := by rw [← hfk, hpg]; rfl
      refine ⟨t, k, ?_, rfl⟩
      rw [fpLoop_succ_nil rs n cur t k log hpage, hkf, List.append_nil]
    | cons r0 frest =>
      have hpage : fpPage cur t = r0 :: frest.take 999 := by
        unfold fpPage
        rw [hpg]
        rfl
      obtain ⟨⟨t1, k1, cur1, log1⟩, hvr⟩ :=
        fpVisitRows_total rs hrs (r0 :: frest.take 999) (t, k, cur, log)
      obtain ⟨hkeys1, hlog1, _, hlast1⟩ :=
        fpVisitRows_some rs _ _ _ _ _ _ _ _ _ hvr
      have hne : (r0 :: frest.take 999) ≠ [] := by simp
      have hcur1 : cur1 = fpKey ((r0 :: frest.take 999).getLast hne) :=
        hlast1 _ (List.getLast?_eq_getLast _ hne)
      -- key-list bookkeeping
      have hsplit : (r0 :: frest) = (r0 :: frest.take 999) ++ frest.drop 999 := by
        rw [List.cons_append, List.take_append_drop]
      have hkflt : keyFilter cur (t.map fpKey) =
          (r0 :: frest.take 999).map fpKey ++ (frest.drop 999).map fpKey := by
        rw [← hfk, hpg, hsplit, List.map_append]
      have hpgne : ((r0 :: frest.take 999).map fpKey) ≠ [] := by simp
      have hlastmap : ((r0 :: frest.take 999).map fpKey).getLast hpgne =
          fpKey ((r0 :: frest.take 999).getLast hne) := by
        have h1 := List.getLast?_map fpKey (r0 :: frest.take 999)
        rw [List.getLast?_eq_getLast _ hpgne, List.getLast?_eq_getLast _ hne] at h1
        have h2 : Option.map fpKey (some ((r0 :: frest.take 999).getLast hne)) =
            some (fpKey ((r0 :: frest.take 999).getLast hne)) := rfl
        rw [h2] at h1
        exact Option.some.inj h1
      obtain ⟨pre, hpre⟩ := keyFilter_suffix (t.map fpKey) cur hp
      have hdecomp : t.map fpKey =
          (pre ++ ((r0 :: frest.take 999).map fpKey).dropLast) ++
            (fpKey ((r0 :: frest.take 999).getLast hne) :: (frest.drop 999).map fpKey) := by
        rw [hpre, hkflt]
        conv_lhs => rw [← List.dropLast_append_getLast hpgne, hlastmap]
        simp [List.append_assoc]
      have hkf2 : keyFilter (fpKey ((r0 :: frest.take 999).getLast hne)) (t.map fpKey) =
          (frest.drop 999).map fpKey := by
        have hp2 : List.Pairwise (fun a b => tupGt b a = true)
            ((pre ++ ((r0 :: frest.take 999).map fpKey).dropLast) ++
              (fpKey ((r0 :: frest.take 999).getLast hne) ::
                (frest.drop 999).map fpKey)) := by
          rw [← hdecomp]
          exact hp
        have := keyFilter_after_elem
          (pre ++ ((r0 :: frest.take 999).map fpKey).dropLast)
          (fpKey ((r0 :: frest.take 999).getLast hne))
          ((frest.drop 999).map fpKey) hp2
        rw [← hdecomp] at this
        exact this
      -- the recursive call
      have hp1 : List.Pairwise (fun a b => tupGt b a = true) (t1.map fpKey) := by
        rw [hkeys1]; exact hp
      have hl1 : (keyFilter cur1 (t1.map fpKey)).length < n := by
        rw [hkeys1, hcur1, hkf2]
        have h1 : (keyFilter cur (t.map fpKey)).length =
            ((r0 :: frest.take 999).map fpKey).length +
              ((frest.drop 999).map fpKey).length := by
          rw [hkflt, List.length_append]
        have h2 : 1 ≤ ((r0 :: frest.take 999).map fpKey).length := by simp
        omega
      obtain ⟨t2, k2, heq2, hkeys2⟩ := ih cur1 t1 k1 log1 hp1 hl1
      refine ⟨t2, k2, ?_, hkeys2.trans hkeys1⟩
      rw [fpLoop_succ_cons rs n cur t k log _ _ hpage, hvr]
      show fpLoop rs n cur1 t1 k1 log1 = _
      rw [heq2, hkeys1, hcur1, hkf2, hlog1, hkflt, List.append_assoc]

/-- C7 amended: pages select only rows with key strictly above the cursor,
limited to the page size; the cursor strictly increases from page to page; and
the fingerprint scan — whose `(file_id, type)` key columns are never modified
— terminates exactly when a page yields zero rows, visiting each qualifying
row exactly once (given key-sorted row order and a working random source).
The alias scan does *not* share the exactly-once property: its update rewrites
the `alias` key column itself (see the counterexample). -/
theorem fingerprint_scan_cursor_spec :
    (∀ (cur : Nat × Str) (t : List FpRow),
      (∀ r ∈ fpPage cur t, tupGt (fpKey r) cur = true) ∧
      (fpPage cur t).length ≤ 1000) ∧
    (∀ (rs : RS) (t : List FpRow) (k : Nat) (cur : Nat × Str)
        (log : List (Nat × Str)) (r : FpRow) (rest : List FpRow)
        (t2 : List FpRow) (k2 : Nat) (cur2 : Nat × Str) (log2 : List (Nat × Str)),
      fpPage cur t = r :: rest →
      fpVisitRows rs (r :: rest) (t, k, cur, log) = some (t2, k2, cur2, log2) →
      tupGt cur2 cur = true) ∧
    (∀ (rs : RS) (fuel : Nat) (t : List FpRow) (k : Nat),
      (∀ i, rs i < hexDict.length) →
      List.Pairwise (fun a b => tupGt b a = true) (t.map fpKey) →
      t.length < fuel →
      ∃ t2 k2,
        anonymiseFingerprints rs fuel t k =
          some (t2, k2, keyFilter (0, []) (t.map fpKey)) ∧
        t2.map fpKey = t.map fpKey ∧
        (keyFilter (0, []) (t.map fpKey)).Nodup) := by
  refine ⟨?_, ?_, ?_⟩
  · intro cur t
    constructor
    · intro r hr
      have h1 := List.mem_of_mem_take hr
      exact (List.mem_filter.mp h1).2
    · unfold fpPage
      rw [List.length_take]
      omega
  · intro rs t k cur log r rest t2 k2 cur2 log2 hpage hvr
    obtain ⟨_, _, _, hlast⟩ := fpVisitRows_some rs _ _ _ _ _ _ _ _ _ hvr
    have hne : (r :: rest) ≠ [] := by simp
    have hcur2 : cur2 = fpKey ((r :: rest).getLast hne) :=
      hlast _ (List.getLast?_eq_getLast _ hne)
    have hmem : (r :: rest).getLast hne ∈ fpPage cur t := by
      rw [hpage]
      exact List.getLast_mem hne
    have h1 := List.mem_of_mem_take hmem
    rw [hcur2]
    exact (List.mem_filter.mp h1).2
  · intro rs fuel t k hrs hp hfl
    have hlen : (keyFilter (0, []) (t.map fpKey)).length < fuel := by
      have h1 : (keyFilter (0, []) (t.map fpKey)).length ≤ (t.map fpKey).length :=
        List.length_filter_le _ _
      rw [List.length_map] at h1
      omega
    obtain ⟨t2, k2, heq, hkeys⟩ :=
      fpLoop_sorted rs hrs fuel (0, []) t k [] hp hlen
    refine ⟨t2, k2, ?_, hkeys, ?_⟩
    · show fpLoop rs fuel (0, []) t k [] = _
      rw [heq, List.nil_append]
    · have hsub : (keyFilter (0, []) (t.map fpKey)).Sublist (t.map fpKey) :=
        List.filter_sublist _
      have hpf : List.Pairwise (fun a b => tupGt b a = true)
          (keyFilter (0, []) (t.map fpKey)) := List.Pairwise.sublist hsub hp
      exact List.Pairwise.imp
        (fun {a b} hab => fun hh => by rw [hh, tupGt_irrefl] at hab; cases hab) hpf

theorem fingerprint_scan_cursor_spec_witness :
    ∃ t2 k2,
      anonymiseFingerprints (fun _ => 0) 3
        [⟨1, "md5".toList, "ab".toList⟩, ⟨2, "md5".toList, "cd".toList⟩] 0 =
        some (t2, k2, keyFilter (0, [])
          (([⟨1, "md5".toList, "ab".toList⟩,
             ⟨2, "md5".toList, "cd".toList⟩] : List FpRow).map fpKey)) ∧
      t2.map fpKey = ([⟨1, "md5".toList, "ab".toList⟩,
        ⟨2, "md5".toList, "cd".toList⟩] : List FpRow).map fpKey ∧
      (keyFilter (0, []) (([⟨1, "md5".toList, "ab".toList⟩,
        ⟨2, "md5".toList, "cd".toList⟩] : List FpRow).map fpKey)).Nodup :=
  fingerprint_scan_cursor_spec.2.2 (fun _ => 0) 3
    [⟨1, "md5".toList, "ab".toList⟩, ⟨2, "md5".toList, "cd".toList⟩] 0
    (by intro i; show 0 < hexDict.length; decide) (by decide) (by decide)

set_option synthInstance.maxSize 2048 in
/-- C7 counterexample: the alias scan can process the same physical row twice.
With one row `(1, "a")` and constant draw 1, the row is visited, its alias
rewritten to "b" — which sorts above the cursor `(1, "a")` — so the next page
selects the same row again (visit log has two entries for a one-row table);
the second visit rewrites "b" to "b" and the scan then stops.  Bonus: the
"anonymised" table ends up equal to the original only by luck of the draws;
here it ends as `(1, "b")`. -/
theorem anonymiseAliases_row_processed_twice :
    anonymiseAliases (fun _ => 1) 4 [⟨1, some "a".toList⟩] 0 =
      some ([⟨1, some "b".toList⟩], 2,
        [(1, some "a".toList), (1, some "b".toList)]) ∧
    ([⟨1, some "a".toList⟩] : List AliasRow).length = 1 := by
  constructor
  · decide
  · rfl

/-! ### Run-level theorems -/

/-- C2: the source store is never mutated by an anonymisation run.  The
vacuum step reads the source to produce the destination copy, and every
subsequent update, delete and truncation is applied to the working copy
only, so on every outcome — success, vacuum failure, open failure, stage
error or panic — the source component of the system state is unchanged. -/
theorem anonymiserRun_source_unchanged (rs : RS) (fuel : Nat)
    (vacuumOk openOk : Bool) (errStage : Option Nat) (st : SysState) :
    ((anonymiserRun rs fuel vacuumOk openOk errStage st).1).src = st.src := by
  unfold anonymiserRun
  by_cases h1 : vacuumOk = false
  · rw [if_pos h1]
  · rw [if_neg h1]
    by_cases h2 : openOk = false
    · rw [if_pos h2]
    · rw [if_neg h2]

/-- C1 amended: every stage that fails with an error inside `Anonymise`
deletes the working copy before the error is returned, so the run leaves no
file at the destination; but a failure of the `Open` step in `NewAnonymiser`
(after a successful `VACUUM INTO` export) returns the error while the copied
file stays at the destination. -/
theorem anonymise_error_cleanup_spec :
    (∀ (rs : RS) (fuel : Nat) (errStage : Option Nat) (st : SysState),
      (anonymiserRun rs fuel true true errStage st).2 = RunOutcome.stageErrored →
      (anonymiserRun rs fuel true true errStage st).1.dest = none) ∧
    (∀ (rs : RS) (fuel : Nat) (errStage : Option Nat) (st : SysState),
      (anonymiserRun rs fuel true false errStage st).2 = RunOutcome.openFailed ∧
      (anonymiserRun rs fuel true false errStage st).1.dest = some st.src) := by
  constructor
  · intro rs fuel errStage st h
    unfold anonymiserRun at h ⊢
    have hv : ¬ ((true : Bool) = false) := by simp
    rw [if_neg hv, if_neg hv] at h ⊢
    cases hak : anonymise rs fuel errStage st.src with
    | mk d out =>
      rw [hak] at h
      have h2 : out = RunOutcome.stageErrored := h
      show d = none
      unfold anonymise at hak
      cases hrun : runStages rs fuel errStage st.src with
      | ok s2 k =>
        rw [hrun] at hak
        have ho : RunOutcome.ok = out := congrArg Prod.snd hak
        rw [← ho] at h2
        exact RunOutcome.noConfusion h2
      | errored =>
        rw [hrun] at hak
        exact (congrArg Prod.fst hak).symm
      | panicked s2 =>
        rw [hrun] at hak
        have ho : RunOutcome.panicked = out := congrArg Prod.snd hak
        rw [← ho] at h2
        exact RunOutcome.noConfusion h2
  · intro rs fuel errStage st
    unfold anonymiserRun
    have hv : ¬ ((true : Bool) = false) := by simp
    rw [if_neg hv, if_pos rfl]
    exact ⟨rfl, rfl⟩

theorem anonymise_error_cleanup_spec_witness :
    (anonymiserRun (fun _ => 0) 1 true true (some 0) ⟨emptyStore, none⟩).1.dest
      = none :=
  anonymise_error_cleanup_spec.1 (fun _ => 0) 1 (some 0) ⟨emptyStore, none⟩
    (by decide)

/-- C1 counterexample: a failing run CAN leave a file at the destination.
When the `VACUUM INTO` export succeeds but opening the new database fails,
`NewAnonymiser` returns the error without deleting the vacuumed copy: the
run fails with `openFailed` while the file is present at the destination. -/
theorem anonymiser_open_failure_leaves_file :
    (anonymiserRun (fun _ => 0) 1 true false none ⟨emptyStore, none⟩).2 =
      RunOutcome.openFailed ∧
    (anonymiserRun (fun _ => 0) 1 true false none ⟨emptyStore, none⟩).1.dest =
      some emptyStore := by
  constructor
  · decide
  · decide

/-- C8 amended: when the secure random source fails during obfuscation the
code panics immediately (fatal, never retried), aborting the rest of the
run; but the panic propagates past the error-handling path, so no error is
returned through `Anonymise` and the working copy is NOT deleted: the file
remains at the destination. -/
theorem randomness_failure_panics_without_cleanup (rs : RS) (fuel : Nat)
    (errStage : Option Nat) (st : SysState)
    (h : (anonymiserRun rs fuel true true errStage st).2 = RunOutcome.panicked) :
    (anonymiserRun rs fuel true true errStage st).1.dest ≠ none := by
  unfold anonymiserRun at h ⊢
  have hv : ¬ ((true : Bool) = false) := by simp
  rw [if_neg hv, if_neg hv] at h ⊢
  cases hak : anonymise rs fuel errStage st.src with
  | mk d out =>
    rw [hak] at h
    have h2 : out = RunOutcome.panicked := h
    show d ≠ none
    unfold anonymise at hak
    cases hrun : runStages rs fuel errStage st.src with
    | ok s2 k =>
      rw [hrun] at hak
      have ho : RunOutcome.ok = out := congrArg Prod.snd hak
      rw [← ho] at h2
      exact RunOutcome.noConfusion h2
    | errored =>
      rw [hrun] at hak
      have ho : RunOutcome.stageErrored = out := congrArg Prod.snd hak
      rw [← ho] at h2
      exact RunOutcome.noConfusion h2
    | panicked s2 =>
      rw [hrun] at hak
      have hd : some s2 = d := congrArg Prod.fst hak
      rw [← hd]
      simp

theorem randomness_failure_panics_without_cleanup_witness :
    (anonymiserRun (fun _ => 1000) 5 true true none
      ⟨{ emptyStore with
          scenes := [⟨1, some "x".toList, none, none, none, none, none⟩] },
        none⟩).1.dest ≠ none :=
  randomness_failure_panics_without_cleanup (fun _ => 1000) 5 none
    ⟨{ emptyStore with
        scenes := [⟨1, some "x".toList, none, none, none, none, none⟩] },
      none⟩ (by decide)

/-- C8 counterexample: a randomness failure (an out-of-range draw, modelling
`rand.Int` failing) during the scenes stage makes the run end in a panic —
not an error return — and the working copy is left at the destination
instead of being deleted. -/
theorem randomness_panic_not_reported_as_error :
    (anonymiserRun (fun _ => 1000) 5 true true none
      ⟨{ emptyStore with
          scenes := [⟨1, some "x".toList, none, none, none, none, none⟩] },
        none⟩).2 = RunOutcome.panicked ∧
    (anonymiserRun (fun _ => 1000) 5 true true none
      ⟨{ emptyStore with
          scenes := [⟨1, some "x".toList, none, none, none, none, none⟩] },
        none⟩).1.dest ≠ none := by
  constructor
  · decide
  · decide

/-- C9 amended: all three entity types that have an alias table — performers,
studios and tags — run `anonymiseAliases` on their alias table right after
their row scan; none of them leaves alias anonymisation unimplemented (a
stale `TODO - anonymise studio aliases` comment notwithstanding). -/
theorem alias_anonymisation_invoked_for_all_entities :
    (∀ (rs : RS) (fuel : Nat) (t : List PerformerRow) (al : List AliasRow)
        (k : Nat) (t2 : List PerformerRow) (a2 : List AliasRow) (k3 : Nat),
      anonymisePerformers rs fuel t al k = some (t2, a2, k3) →
      ∃ k2 log,
        scanLoop (performerVisit rs) PerformerRow.id fuel 0 t k = some (t2, k2) ∧
        anonymiseAliases rs fuel al k2 = some (a2, k3, log)) ∧
    (∀ (rs : RS) (fuel : Nat) (t : List StudioRow) (al : List AliasRow)
        (k : Nat) (t2 : List StudioRow) (a2 : List AliasRow) (k3 : Nat),
      anonymiseStudios rs fuel t al k = some (t2, a2, k3) →
      ∃ k2 log,
        scanLoop (studioVisit rs) StudioRow.id fuel 0 t k = some (t2, k2) ∧
        anonymiseAliases rs fuel al k2 = some (a2, k3, log)) ∧
    (∀ (rs : RS) (fuel : Nat) (t : List TagRow) (al : List AliasRow)
        (k : Nat) (t2 : List TagRow) (a2 : List AliasRow) (k3 : Nat),
      anonymiseTags rs fuel t al k = some (t2, a2, k3) →
      ∃ k2 log,
        scanLoop (tagVisit rs) TagRow.id fuel 0 t k = some (t2, k2) ∧
        anonymiseAliases rs fuel al k2 = some (a2, k3, log)) := by
  refine ⟨?_, ?_, ?_⟩
  · intro rs fuel t al k t2 a2 k3 h
    unfold anonymisePerformers at h
    cases h1 : scanLoop (performerVisit rs) PerformerRow.id fuel 0 t k with
    | none =>
      rw [h1] at h
      exact Option.noConfusion h
    | some p =>
      rw [h1] at h
      cases p with
      | mk tp kp =>
        have h3 : (match anonymiseAliases rs fuel al kp with
            | none => none
            | some (xa, xk, _) => some (tp, xa, xk)) = some (t2, a2, k3) := h
        cases h2 : anonymiseAliases rs fuel al kp with
        | none =>
          rw [h2] at h3
          exact Option.noConfusion h3
        | some q =>
          obtain ⟨qa, qk, qlog⟩ := q
          rw [h2] at h3
          have h4 : (some (tp, qa, qk) : Option (List PerformerRow × List AliasRow × Nat)) =
            some (t2, a2, k3) := h3
          simp only [Option.some.injEq, Prod.mk.injEq] at h4
          obtain ⟨he1, he2, he3⟩ := h4
          subst he1; subst he2; subst he3
          exact ⟨kp, qlog, rfl, h2⟩
  · intro rs fuel t al k t2 a2 k3 h
    unfold anonymiseStudios at h
    cases h1 : scanLoop (studioVisit rs) StudioRow.id fuel 0 t k with
    | none =>
      rw [h1] at h
      exact Option.noConfusion h
    | some p =>
      rw [h1] at h
      cases p with
      | mk tp kp =>
        have h3 : (match anonymiseAliases rs fuel al kp with
            | none => none
            | some (xa, xk, _) => some (tp, xa, xk)) = some (t2, a2, k3) := h
        cases h2 : anonymiseAliases rs fuel al kp with
        | none =>
          rw [h2] at h3
          exact Option.noConfusion h3
        | some q =>
          obtain ⟨qa, qk, qlog⟩ := q
          rw [h2] at h3
          have h4 : (some (tp, qa, qk) : Option (List StudioRow × List AliasRow × Nat)) =
            some (t2, a2, k3) := h3
          simp only [Option.some.injEq, Prod.mk.injEq] at h4
          obtain ⟨he1, he2, he3⟩ := h4
          subst he1; subst he2; subst he3
          exact ⟨kp, qlog, rfl, h2⟩
  · intro rs fuel t al k t2 a2 k3 h
    unfold anonymiseTags at h
    cases h1 : scanLoop (tagVisit rs) TagRow.id fuel 0 t k with
    | none =>
      rw [h1] at h
      exact Option.noConfusion h
    | some p =>
      rw [h1] at h
      cases p with
      | mk tp kp =>
        have h3 : (match anonymiseAliases rs fuel al kp with
            | none => none
            | some (xa, xk, _) => some (tp, xa, xk)) = some (t2, a2, k3) := h
        cases h2 : anonymiseAliases rs fuel al kp with
        | none =>
          rw [h2] at h3
          exact Option.noConfusion h3
        | some q =>
          obtain ⟨qa, qk, qlog⟩ := q
          rw [h2] at h3
          have h4 : (some (tp, qa, qk) : Option (List TagRow × List AliasRow × Nat)) =
            some (t2, a2, k3) := h3
          simp only [Option.some.injEq, Prod.mk.injEq] at h4
          obtain ⟨he1, he2, he3⟩ := h4
          subst he1; subst he2; subst he3
          exact ⟨kp, qlog, rfl, h2⟩

set_option synthInstance.maxSize 2048 in
theorem alias_anonymisation_invoked_for_all_entities_witness :
    ∃ k2 log,
      scanLoop (performerVisit (fun _ => 1)) PerformerRow.id 4 0 [] 0 =
        some ([], k2) ∧
      anonymiseAliases (fun _ => 1) 4 [⟨1, some "a".toList⟩] k2 =
        some ([⟨1, some "b".toList⟩], 2, log) :=
  alias_anonymisation_invoked_for_all_entities.1 (fun _ => 1) 4 []
    [⟨1, some "a".toList⟩] 0 [] [⟨1, some "b".toList⟩] 2 (by decide)

set_option synthInstance.maxSize 2048 in
/-- C9 counterexample: no entity type's alias table is left unanonymised.
On a concrete one-alias table, each of the performer, studio and tag stages
obfuscates the alias value ("a" becomes "b" under constant draw 1). -/
theorem all_alias_tables_obfuscated :
    anonymisePerformers (fun _ => 1) 4 [] [⟨1, some "a".toList⟩] 0 =
      some ([], [⟨1, some "b".toList⟩], 2) ∧
    anonymiseStudios (fun _ => 1) 4 [] [⟨1, some "a".toList⟩] 0 =
      some ([], [⟨1, some "b".toList⟩], 2) ∧
    anonymiseTags (fun _ => 1) 4 [] [⟨1, some "a".toList⟩] 0 =
      some ([], [⟨1, some "b".toList⟩], 2) ∧
    (some "b".toList : Option Str) ≠ some "a".toList := by
  refine ⟨by decide, by decide, by decide, by decide⟩

end StashAnon
